import Mathlib

/- Verification development for the versioned model artifact registry
   (`backend/app/services/ftp_model_registry.py`).

   Python strings are modelled as lists of Unicode code points (`List Nat`);
   the string helpers (`str.lower`, `str.strip`, …) are modelled on the
   ASCII plane, which is the alphabet the registry's slugs, version tokens
   and path schemes live in.  The filesystem effects of the registry are
   modelled as explicit state (association lists keyed by stage and slug
   for the index documents and the pointer mirrors, plus the set of
   version directories present on disk). -/

def String.codes (s : String) : List Nat := s.toList.map Char.toNat

namespace FtpRegistry

abbrev PyStr := List Nat

/-- ASCII whitespace, as stripped by Python's `str.strip()`. -/
def pyIsSpace (c : Nat) : Bool :=
  c == 32 || c == 9 || c == 10 || c == 13 || c == 11 || c == 12

/-- `str.lower` on a single code point (ASCII plane). -/
def pyLower (c : Nat) : Nat := if 65 ≤ c ∧ c ≤ 90 then c + 32 else c

/-- A character stripped by `.strip(".-_")` in `_slugify`. -/
def sepChar (c : Nat) : Bool := c == 46 || c == 45 || c == 95

/-- Characters kept by the `re.sub` in `_slugify`: `[a-z0-9_.-]` when dots
are allowed, `[a-z0-9_-]` otherwise. -/
def allowedChar (allowDot : Bool) (c : Nat) : Bool :=
  decide (97 ≤ c ∧ c ≤ 122) || decide (48 ≤ c ∧ c ≤ 57) ||
    c == 95 || c == 45 || (allowDot && c == 46)

/-- Python `str.strip`-style removal of a class of characters from both
ends of a string. -/
def stripBoth (p : Nat → Bool) (l : PyStr) : PyStr :=
  ((l.dropWhile p).reverse.dropWhile p).reverse

/-- `_slugify` (ftp_model_registry.py, lines 25-30): strip whitespace,
lowercase, replace spaces with hyphens, drop disallowed characters, strip
leading and trailing `.`/`-`/`_`, and fall back when empty. -/
def _slugify (text fallback : PyStr) (allowDot : Bool) : PyStr :=
  let candidate := ((stripBoth pyIsSpace text).map pyLower).map fun c =>
    if c == 32 then 45 else c
  let cleaned := candidate.filter (allowedChar allowDot)
  let cleaned := stripBoth sepChar cleaned
  if cleaned.isEmpty then fallback else cleaned

def _model_slug (modelName : PyStr) : PyStr :=
  _slugify modelName ("model".codes) false

def _version_slug (versionName : PyStr) : PyStr :=
  _slugify versionName ("v0001".codes) true

/-- One decimal digit. -/
def digitChar (c : Nat) : Bool := decide (48 ≤ c ∧ c ≤ 57)

/-- Value of a nonempty string of decimal digits (`int(...)`). -/
def digitsToNat (ds : PyStr) : Nat := ds.foldl (fun acc c => acc * 10 + (c - 48)) 0

/-- The regex match `^v(\d+)$` of `_next_version`: code point 118 is `v`.
Returns the numeric suffix when the token matches. -/
def autoSuffix (s : PyStr) : Option Nat :=
  match s with
  | 118 :: ds => if ds ≠ [] ∧ ds.all digitChar then some (digitsToNat ds) else none
  | _ => none

def decimalDigits (n : Nat) : PyStr := (Nat.toDigits 10 n).map Char.toNat

/-- Zero padding to width 4, as in the format string `v{max_num + 1:04d}`. -/
def pad4 (n : Nat) : PyStr :=
  List.replicate (4 - (decimalDigits n).length) 48 ++ decimalDigits n

def vToken (n : Nat) : PyStr := 118 :: pad4 n

/-- The two registry stages. -/
inductive Stage
| dev
| release
deriving DecidableEq

/-- Provenance metadata attached to a published version. -/
inductive SourceMeta
| generic (kv : List (PyStr × PyStr))
| promotion (fromStage : Stage) (sourceVersion : PyStr) (sourceBundle : PyStr)
deriving DecidableEq

structure StdArtifacts where
  pytorch : PyStr
  sourceRel : PyStr
deriving DecidableEq

/-- An element of the per-model index's `versions` list
(`_build_version_entry`, lines 218-239). -/
structure VersionEntry where
  version : PyStr
  createdAt : PyStr
  notes : Option PyStr
  bundle : PyStr
  manifest : PyStr
  source : SourceMeta
  standardArtifacts : Option StdArtifacts
deriving DecidableEq

/-- The per-(stage, model) index document (`_default_index`, lines 74-81). -/
structure RegistryIndex where
  modelName : PyStr
  stage : Stage
  latest : Option PyStr
  versions : List VersionEntry
  updatedAt : PyStr
deriving DecidableEq

/-- Python truthiness of an optional string (`None` and `""` are falsy). -/
def pyTruthy : Option PyStr → Bool
  | none => false
  | some s => !s.isEmpty

/-- `_next_version` (lines 123-130): max numeric suffix over `^v(\d+)$`
matches, starting from 0, then `v{max+1:04d}`. -/
def _next_version (index : RegistryIndex) : PyStr :=
  vToken ((index.versions.foldl
    (fun m e => match autoSuffix e.version with | some k => max m k | none => m) 0) + 1)

/-- `_resolve_version` (lines 132-135): a truthy requested version is
slugified, otherwise the next version is auto-allocated. -/
def _resolve_version (index : RegistryIndex) (requested : Option PyStr) : PyStr :=
  match requested with
  | some r => if r.isEmpty then _next_version index else _version_slug r
  | none => _next_version index

structure FtpPaths where
  bundle : PyStr
  manifest : PyStr
  latest : PyStr
  index : PyStr
  root : PyStr
deriving DecidableEq

def stageStr : Stage → PyStr
  | .dev => "dev".codes
  | .release => "release".codes

/-- `_build_ftp_paths` (lines 137-152). -/
def _build_ftp_paths (stage : Stage) (modelSlug version bundleName : PyStr) : FtpPaths :=
  let modelRoot := "/".codes ++ stageStr stage ++ "/".codes ++ modelSlug
  let versionRoot := modelRoot ++ "/versions/".codes ++ version
  { bundle := versionRoot ++ "/".codes ++ bundleName
    manifest := versionRoot ++ "/manifest.json".codes
    latest := modelRoot ++ "/LATEST".codes
    index := modelRoot ++ "/index.json".codes
    root := modelRoot }

example : _model_slug ("My Model".codes) = "my-model".codes := by decide
example : _version_slug ("latest".codes) = "latest".codes := by decide
example : _slugify ("  .-_  ".codes) ("model".codes) false = "model".codes := by decide
example : vToken 2 = "v0002".codes := by decide
example : autoSuffix ("v0003".codes) = some 3 := by decide
example : autoSuffix ("latest".codes) = none := by decide

/-- Read the value bound to a key in an association list (a file lookup by
path). -/
def lookupKey {κ β : Type} [DecidableEq κ] (l : List (κ × β)) (k : κ) : Option β :=
  match l with
  | [] => none
  | e :: rest => if e.1 = k then some e.2 else lookupKey rest k

/-- Replace the value at a key in an association list (keeping its
position), or append the binding when the key is absent — the semantics of
a Python dict assignment and of rewriting one file in a directory. -/
def setKey {κ β : Type} [DecidableEq κ] (l : List (κ × β)) (k : κ) (v : β) : List (κ × β) :=
  match l with
  | [] => [(k, v)]
  | e :: rest => if e.1 = k then (k, v) :: rest else e :: setKey rest k v

/-- Delete a key from an association list (`unlink(missing_ok=True)`). -/
def removeKey {κ β : Type} [DecidableEq κ] (l : List (κ × β)) (k : κ) : List (κ × β) :=
  l.filter fun e => decide (e.1 ≠ k)

/-- `mkdir(exist_ok=True)` on a set of directories. -/
def insertNew {κ : Type} [DecidableEq κ] (l : List κ) (k : κ) : List κ :=
  if k ∈ l then l else l ++ [k]

/-- One row of `_walk_file_entries`: relative path and byte size. -/
structure FileEntry where
  path : PyStr
  bytes : Nat
deriving DecidableEq

/-- The per-version manifest document (`_build_manifest`, lines 180-216). -/
structure Manifest where
  modelName : PyStr
  modelSlug : PyStr
  stage : Stage
  version : PyStr
  createdAt : PyStr
  notes : Option PyStr
  source : SourceMeta
  files : List FileEntry
  bundle : PyStr
  ftpBundle : PyStr
  ftpManifest : PyStr
  standardArtifacts : Option StdArtifacts
deriving DecidableEq

/-- The structured `LATEST.json` pointer mirror (`_write_index`, lines 108-114). -/
structure LatestDoc where
  modelName : PyStr
  stage : Stage
  latest : PyStr
  entry : Option VersionEntry
  updatedAt : PyStr
deriving DecidableEq

abbrev ModelKey := Stage × PyStr

abbrev VersionKey := Stage × PyStr × PyStr

/-- The on-disk state owned by one registry instance: index documents,
existing version directories, manifests, the two pointer mirrors, and the
model directories of each stage. -/
structure RegState where
  indices : List (ModelKey × RegistryIndex)
  versionDirs : List VersionKey
  manifests : List (VersionKey × Manifest)
  latestTxt : List (ModelKey × PyStr)
  latestJson : List (ModelKey × LatestDoc)
  modelDirs : List ModelKey
deriving DecidableEq

/-- `_default_index` (lines 74-81). -/
def _default_index (stage : Stage) (modelName now : PyStr) : RegistryIndex :=
  { modelName := modelName, stage := stage, latest := none, versions := [], updatedAt := now }

/-- `_read_index` (lines 83-89): the persisted index, or a fresh default. -/
def _read_index (st : RegState) (stage : Stage) (modelName now : PyStr) : RegistryIndex :=
  match lookupKey st.indices (stage, _model_slug modelName) with
  | some index => index
  | none => _default_index stage modelName now

/-- `_write_index` (lines 91-121): set `updatedAt`, persist the index, then
regenerate the pointer mirrors.  A truthy `latest` writes the plain `LATEST`
file and the `LATEST.json` mirror (whose `entry` is the first version entry
matching `latest`, or null); a falsy `latest` deletes both, tolerating
missing files. -/
def _write_index (st : RegState) (stage : Stage) (modelName now : PyStr)
    (index : RegistryIndex) : RegState :=
  let key : ModelKey := (stage, _model_slug modelName)
  let idx := { index with updatedAt := now }
  let st1 := { st with modelDirs := insertNew st.modelDirs key,
                       indices := setKey st.indices key idx }
  match idx.latest with
  | some l =>
    if l.isEmpty then
      { st1 with latestTxt := removeKey st1.latestTxt key,
                 latestJson := removeKey st1.latestJson key }
    else
      let entry := idx.versions.find? fun e => decide (e.version = l)
      { st1 with latestTxt := setKey st1.latestTxt key l,
                 latestJson := setKey st1.latestJson key
                   { modelName := modelName, stage := stage, latest := l,
                     entry := entry, updatedAt := now } }
  | none =>
      { st1 with latestTxt := removeKey st1.latestTxt key,
                 latestJson := removeKey st1.latestJson key }

/-- The registry's typed failures (§7 of the specification). -/
inductive RegError
| sourceNotFound
| versionAlreadyExists
| checkpointNotFound
| noVersionsFound
| noLatestVersion
| versionNotFound
| samePromotionStage
deriving DecidableEq

/-- The dict returned by `publish_from_local` (lines 439-451). -/
structure PublishResult where
  modelName : PyStr
  stage : Stage
  version : PyStr
  latest : Option PyStr
  ftpRoot : PyStr
  bundlePath : PyStr
  manifestPath : PyStr
  latestPath : PyStr
  indexPath : PyStr
  versionCount : Nat
  standardArtifactPath : Option PyStr
deriving DecidableEq

/-- Arguments of `publish_from_local`.  The payload on disk is abstracted:
`sourceExists` models the existence check of the local source path,
`payloadFiles` the final sorted walk of the assembled payload, and
`stdOutcome` the result of the torch-standard conversion when it is
requested (`none` models `_discover_torch_payload_file` finding nothing,
which raises after the payload directory was created). -/
structure PublishArgs where
  modelName : PyStr
  stage : Stage
  sourceExists : Bool
  payloadFiles : List FileEntry
  version : Option PyStr
  setLatest : Bool
  notes : Option PyStr
  sourceMeta : SourceMeta
  convertToStd : Bool
  stdOutcome : Option StdArtifacts
deriving DecidableEq

/-- `_build_version_entry` (lines 218-239). -/
def _build_version_entry (version createdAt : PyStr) (notes : Option PyStr)
    (bundlePath manifestPath : PyStr) (source : SourceMeta)
    (stdArts : Option StdArtifacts) : VersionEntry :=
  { version := version, createdAt := createdAt, notes := notes,
    bundle := bundlePath, manifest := manifestPath, source := source,
    standardArtifacts := stdArts }

/-- `publish_from_local` (lines 360-451), the whole critical section: read
the index, resolve the version, fail if its directory exists, create the
payload and version directory, optionally convert, write manifest, append
the version entry, update `latest`, persist the index. -/
def publish_from_local (st : RegState) (now : PyStr) (a : PublishArgs) :
    RegState × Except RegError PublishResult :=
  if a.sourceExists = false then (st, .error .sourceNotFound) else
  let index := _read_index st a.stage a.modelName now
  let slug := _model_slug a.modelName
  let resolved := _resolve_version index a.version
  let vkey : VersionKey := (a.stage, slug, resolved)
  if vkey ∈ st.versionDirs then (st, .error .versionAlreadyExists) else
  let st1 := { st with versionDirs := st.versionDirs ++ [vkey],
                       modelDirs := insertNew st.modelDirs (a.stage, slug) }
  if a.convertToStd = true ∧ a.stdOutcome = none then (st1, .error .checkpointNotFound) else
  let stdArts := if a.convertToStd then a.stdOutcome else none
  let fp := _build_ftp_paths a.stage slug resolved ("bundle.tar.gz".codes)
  let manifest : Manifest :=
    { modelName := a.modelName, modelSlug := slug, stage := a.stage, version := resolved,
      createdAt := now, notes := a.notes, source := a.sourceMeta, files := a.payloadFiles,
      bundle := "bundle.tar.gz".codes, ftpBundle := fp.bundle, ftpManifest := fp.manifest,
      standardArtifacts := stdArts }
  let st2 := { st1 with manifests := setKey st1.manifests vkey manifest }
  let entry := _build_version_entry resolved now a.notes fp.bundle fp.manifest a.sourceMeta stdArts
  let index1 := { index with versions := index.versions ++ [entry] }
  let index2 := if a.setLatest || !pyTruthy index1.latest
                then { index1 with latest := some resolved } else index1
  let st3 := _write_index st2 a.stage a.modelName now index2
  (st3, .ok { modelName := a.modelName, stage := a.stage, version := resolved,
              latest := index2.latest, ftpRoot := fp.root, bundlePath := fp.bundle,
              manifestPath := fp.manifest, latestPath := fp.latest, indexPath := fp.index,
              versionCount := index2.versions.length,
              standardArtifactPath := stdArts.map (·.pytorch) })

/-- `get_model` (lines 540-544): the raw index, failing when `versions` is
empty. -/
def get_model (st : RegState) (stage : Stage) (modelName now : PyStr) :
    Except RegError RegistryIndex :=
  let index := _read_index st stage modelName now
  if index.versions.isEmpty then .error .noVersionsFound else .ok index

/-- The dict returned by `resolve` (lines 568-579). -/
structure ResolveResult where
  modelName : PyStr
  stage : Stage
  requestedVersion : PyStr
  resolvedVersion : PyStr
  latest : Option PyStr
  bundlePath : PyStr
  manifestPath : PyStr
  latestPath : PyStr
  indexPath : PyStr
  entry : VersionEntry
deriving DecidableEq

/-- `resolve` (lines 546-579): `""` and `"latest"` read the latest pointer,
anything else is slugified; the matching version entry must exist. -/
def resolve (st : RegState) (stage : Stage) (modelName version now : PyStr) :
    Except RegError ResolveResult :=
  match get_model st stage modelName now with
  | .error e => .error e
  | .ok index =>
    let resolvedOpt := if version = [] ∨ version = "latest".codes then index.latest
                       else some (_version_slug version)
    match resolvedOpt with
    | none => .error .noLatestVersion
    | some rv =>
      if rv.isEmpty then .error .noLatestVersion else
      match index.versions.find? fun e => decide (e.version = rv) with
      | none => .error .versionNotFound
      | some entry =>
        let fp := _build_ftp_paths stage (_model_slug modelName) rv ("bundle.tar.gz".codes)
        .ok { modelName := index.modelName, stage := stage, requestedVersion := version,
              resolvedVersion := rv, latest := index.latest, bundlePath := fp.bundle,
              manifestPath := fp.manifest, latestPath := fp.latest, indexPath := fp.index,
              entry := entry }

/-- One row of the `list_models` answer (lines 527-536). -/
structure ModelSummary where
  modelName : PyStr
  stage : Stage
  latest : Option PyStr
  versionCount : Nat
  updatedAt : PyStr
  slug : PyStr
deriving DecidableEq

/-- The subdirectory names of a stage directory, in enumeration order. -/
def stageSlugs (st : RegState) (stage : Stage) : List PyStr :=
  st.modelDirs.filterMap fun d => if d.1 = stage then some d.2 else none

/-- `list_models` (lines 514-538): iterate the stage's model directories in
sorted order, silently skipping those without an index document. -/
def list_models (st : RegState) (stage : Stage) : List ModelSummary :=
  (List.insertionSort (· ≤ ·) (stageSlugs st stage)).filterMap fun slug =>
    (lookupKey st.indices (stage, slug)).map fun index =>
      { modelName := index.modelName, stage := stage, latest := index.latest,
        versionCount := index.versions.length, updatedAt := index.updatedAt,
        slug := slug }

structure PromoteArgs where
  modelName : PyStr
  fromStage : Stage
  toStage : Stage
  version : PyStr
  targetVersion : Option PyStr
  setLatest : Bool
  notes : Option PyStr
  promotePayload : List FileEntry
deriving DecidableEq

/-- `promote` (lines 581-617): fail on equal stages, resolve in the source
stage, republish the resolved version's payload into the target stage with
promotion provenance. -/
def promote (st : RegState) (now : PyStr) (p : PromoteArgs) :
    RegState × Except RegError PublishResult :=
  if p.fromStage = p.toStage then (st, .error .samePromotionStage) else
  match resolve st p.fromStage p.modelName p.version now with
  | .error e => (st, .error e)
  | .ok src =>
    publish_from_local st now
      { modelName := p.modelName, stage := p.toStage,
        sourceExists := decide
          ((p.fromStage, _model_slug p.modelName, src.resolvedVersion) ∈ st.versionDirs),
        payloadFiles := p.promotePayload, version := p.targetVersion,
        setLatest := p.setLatest, notes := p.notes,
        sourceMeta := .promotion p.fromStage src.resolvedVersion src.bundlePath,
        convertToStd := false, stdOutcome := none }

/-- A loaded Python value inside a checkpoint: tensors, strings, ints,
`None`, dicts (whose keys may be arbitrary values, as in Python), and
anything else. -/
inductive PyVal
| tensor (id : Nat)
| str (s : PyStr)
| int (n : Int)
| pynone
| dict (entries : List (PyVal × PyVal))
| other

abbrev PyDict := List (PyVal × PyVal)

/-- The result of `torch.load`: an `nn.Module` (abstracted to its state
dict), a dict, or anything else. -/
inductive RawCkpt
| module (stateDict : PyDict)
| dictData (entries : PyDict)
| otherData

def isStrKey : PyVal → Bool
  | .str _ => true
  | _ => false

def isTensor : PyVal → Bool
  | .tensor _ => true
  | _ => false

/-- Does this dict key equal the string `k`? -/
def keyIs (k : PyStr) : PyVal → Bool
  | .str s => s == k
  | _ => false

/-- Python `d.get(k)` on a string key. -/
def dictGet (d : PyDict) (k : PyStr) : Option PyVal :=
  match d with
  | [] => none
  | e :: rest => if keyIs k e.1 then some e.2 else dictGet rest k

/-- Python `d[k] = v`: replace in place, or append when absent. -/
def dictSet (d : PyDict) (k : PyStr) (v : PyVal) : PyDict :=
  match d with
  | [] => [(.str k, v)]
  | e :: rest => if keyIs k e.1 then (e.1, v) :: rest else e :: dictSet rest k v

/-- Python `d.setdefault(k, v)`: insert only when the key is absent. -/
def dictSetdefault (d : PyDict) (k : PyStr) (v : PyVal) : PyDict :=
  if (dictGet d k).isSome then d else d ++ [(.str k, v)]

/-- `_looks_like_state_dict` (lines 241-248): a non-empty dict, all keys
strings, at least one tensor value. -/
def _looks_like_state_dict (d : PyDict) : Bool :=
  !d.isEmpty && d.all (fun e => isStrKey e.1) && d.any (fun e => isTensor e.2)

/-- The test `"model_state_dict" in standardized and
isinstance(standardized["model_state_dict"], dict)` (line 285). -/
def hasMSDdict (d : PyDict) : Bool :=
  match dictGet d ("model_state_dict".codes) with
  | some (.dict _) => true
  | _ => false

/-- `None`-or-empty coalescing of `task_type or "classification"`. -/
def pyOrStr (o : Option PyStr) (dflt : PyStr) : PyStr :=
  match o with
  | some s => if s.isEmpty then dflt else s
  | none => dflt

inductive CkptError
| unsupportedDict
| unsupportedType

/-- `.get(k) is None` in Python: the key is absent or its value is `None`. -/
def dictGetIsNone (d : PyDict) (k : PyStr) : Bool :=
  match dictGet d k with
  | none => true
  | some .pynone => true
  | some _ => false

/-- The unconditional tail of `_build_torch_standard_payload`
(lines 301-307): a second `num_classes` backfill, then the format tag, the
source file name and the conversion timestamp. -/
def stampEnvelope (standardized : PyDict) (sourceFileName : PyStr)
    (numClasses : Option Int) (now : PyStr) : PyDict :=
  let s := match numClasses with
    | some n => if dictGetIsNone standardized ("num_classes".codes)
                then dictSet standardized ("num_classes".codes) (.int n) else standardized
    | none => standardized
  let s := dictSet s ("standard_format".codes) (.str ("void_torch_checkpoint_v1".codes))
  let s := dictSet s ("source_file".codes) (.str sourceFileName)
  dictSet s ("converted_at".codes) (.str now)

/-- The `num_classes` value stored by the `nn.Module` branch (line 281):
the caller's value, or Python `None`. -/
def moduleNumVal (numClasses : Option Int) : PyVal :=
  match numClasses with
  | some n => .int n
  | none => .pynone

/-- Lines 296-297: `if num_classes is not None:
standardized["num_classes"] = num_classes`. -/
def ncAdjusted (base : PyDict) (numClasses : Option Int) : PyDict :=
  match numClasses with
  | some n => dictSet base ("num_classes".codes) (.int n)
  | none => base

/-- `_build_torch_standard_payload` (lines 268-307). -/
def _build_torch_standard_payload (raw : RawCkpt) (sourceFileName : PyStr)
    (taskType : Option PyStr) (numClasses : Option Int) (now : PyStr) :
    Except CkptError PyDict :=
  match raw with
  | .module sd =>
    let standardized : PyDict :=
      [(.str ("model_state_dict".codes), .dict sd),
       (.str ("task_type".codes), .str (pyOrStr taskType ("classification".codes))),
       (.str ("num_classes".codes), moduleNumVal numClasses)]
    .ok (stampEnvelope standardized sourceFileName numClasses now)
  | .dictData d =>
    if hasMSDdict d || _looks_like_state_dict d then
      let standardized := if hasMSDdict d then d
                          else [(.str ("model_state_dict".codes), .dict d)]
      let standardized := dictSetdefault standardized ("task_type".codes)
        (.str (pyOrStr taskType ("classification".codes)))
      let standardized := ncAdjusted standardized numClasses
      .ok (stampEnvelope standardized sourceFileName numClasses now)
    else .error .unsupportedDict
  | .otherData => .error .unsupportedType

/-- A path inside the payload directory, as its list of components (the
tuple of parts that `pathlib` compares when globs are sorted). -/
abbrev RelPath := List PyStr

def preferredNames : List PyStr :=
  ["best_checkpoint.pth".codes, "best_checkpoint.pt".codes,
   "model.pth".codes, "model.pt".codes]

def ckptExtensions : List PyStr := [".pth".codes, ".pt".codes]

/-- `payload_dir.rglob(name)` membership: the file's basename equals the
preferred name. -/
def nameMatches (name : PyStr) (p : RelPath) : Bool := p.getLast? == some name

/-- `payload_dir.rglob("*" + ext)` membership: the basename ends in the
extension. -/
def extMatches (ext : PyStr) (p : RelPath) : Bool :=
  match p.getLast? with
  | some b => ext.isSuffixOf b
  | none => false

/-- `_discover_torch_payload_file` (lines 250-266).  `files` is the
recursive enumeration of the payload directory in filesystem order; the
preferred-name loop takes `found[0]` of the unsorted glob, the extension
fallback sorts its glob first. -/
def _discover_torch_payload_file (files : List RelPath) : Option RelPath :=
  match preferredNames.findSome? (fun name => (files.filter (nameMatches name)).head?) with
  | some f => some f
  | none =>
    ckptExtensions.findSome? fun ext =>
      (List.insertionSort (· ≤ ·) (files.filter (extMatches ext))).head?

theorem lookupKey_setKey_self {κ β : Type} [DecidableEq κ] (l : List (κ × β)) (k : κ) (v : β) :
    lookupKey (setKey l k v) k = some v := by
  induction l with
  | nil => simp [setKey, lookupKey]
  | cons e rest ih =>
    by_cases h : e.1 = k
    · simp [setKey, h, lookupKey]
    · simp [setKey, h, lookupKey, ih]

theorem lookupKey_setKey_ne {κ β : Type} [DecidableEq κ] (l : List (κ × β)) (k k' : κ) (v : β)
    (h : k' ≠ k) : lookupKey (setKey l k v) k' = lookupKey l k' := by
  induction l with
  | nil => simp [setKey, lookupKey, Ne.symm h]
  | cons e rest ih =>
    by_cases he : e.1 = k
    · subst he
      simp [setKey, lookupKey, Ne.symm h]
    · simp [setKey, he, lookupKey, ih]

theorem lookupKey_removeKey_self {κ β : Type} [DecidableEq κ] (l : List (κ × β)) (k : κ) :
    lookupKey (removeKey l k) k = none := by
  induction l with
  | nil => simp [removeKey, lookupKey]
  | cons e rest ih =>
    by_cases h : e.1 = k
    · simpa [removeKey, h] using ih
    · simpa [removeKey, h, lookupKey] using ih

theorem lookupKey_removeKey_ne {κ β : Type} [DecidableEq κ] (l : List (κ × β)) (k k' : κ)
    (h : k' ≠ k) : lookupKey (removeKey l k) k' = lookupKey l k' := by
  induction l with
  | nil => simp [removeKey, lookupKey]
  | cons e rest ih =>
    by_cases he : e.1 = k
    · subst he
      simpa [removeKey, lookupKey, Ne.symm h] using ih
    · by_cases hk : e.1 = k'
      · simp [removeKey, he, lookupKey, hk, h, List.filter_cons]
      · simp only [removeKey, List.filter_cons, he, hk, decide_eq_true_eq, Bool.not_false,
          decide_not, if_true, lookupKey, if_false, eq_self_iff_true]
        simpa [removeKey] using ih

theorem removeKey_idem {κ β : Type} [DecidableEq κ] (l : List (κ × β)) (k : κ) :
    removeKey (removeKey l k) k = removeKey l k := by
  induction l with
  | nil => rfl
  | cons e rest ih =>
    by_cases he : e.1 = k
    · simp only [removeKey] at ih ⊢
      simp [he, ih]
    · simp only [removeKey] at ih ⊢
      simp [he, ih]

theorem mem_of_mem_dropWhile {p : Nat → Bool} : ∀ {l : PyStr} {c : Nat},
    c ∈ l.dropWhile p → c ∈ l := by
  intro l
  induction l with
  | nil => intro c h; simp at h
  | cons a t ih =>
    intro c h
    by_cases ha : p a = true
    · rw [List.dropWhile_cons, if_pos ha] at h
      exact List.mem_cons_of_mem a (ih h)
    · rw [List.dropWhile_cons, if_neg ha] at h
      exact h

theorem dropWhile_all_false {p : Nat → Bool} : ∀ {l : PyStr},
    (∀ c ∈ l, p c = false) → l.dropWhile p = l := by
  intro l h
  cases l with
  | nil => rfl
  | cons a t => rw [List.dropWhile_cons, if_neg (by simp [h a (by simp)])]

theorem dropWhile_all_true {p : Nat → Bool} : ∀ {l : PyStr},
    (∀ c ∈ l, p c = true) → l.dropWhile p = [] := by
  intro l
  induction l with
  | nil => intro _; rfl
  | cons a t ih =>
    intro h
    rw [List.dropWhile_cons, if_pos (h a (by simp))]
    exact ih fun c hc => h c (List.mem_cons_of_mem a hc)

theorem head?_dropWhile_false {p : Nat → Bool} : ∀ {l : PyStr} {c : Nat} {t : PyStr},
    l.dropWhile p = c :: t → p c = false := by
  intro l
  induction l with
  | nil => intro c t h; simp at h
  | cons a t' ih =>
    intro c t h
    by_cases ha : p a = true
    · rw [List.dropWhile_cons, if_pos ha] at h
      exact ih h
    · rw [List.dropWhile_cons, if_neg ha] at h
      cases h
      simpa using ha

theorem head?_false_dropWhile {p : Nat → Bool} {l : PyStr} {c : Nat}
    (h : l.head? = some c) (hc : p c = false) : l.dropWhile p = l := by
  cases l with
  | nil => rfl
  | cons a t =>
    have : a = c := by simpa using h
    subst this
    rw [List.dropWhile_cons, if_neg (by simp [hc])]

theorem dropWhile_idem (p : Nat → Bool) (l : PyStr) :
    (l.dropWhile p).dropWhile p = l.dropWhile p := by
  induction l with
  | nil => rfl
  | cons a t ih =>
    by_cases ha : p a = true
    · rw [List.dropWhile_cons, if_pos ha, ih]
    · rw [List.dropWhile_cons, if_neg ha, List.dropWhile_cons, if_neg ha]

theorem getLast?_dropWhile {p : Nat → Bool} : ∀ {l : PyStr},
    l.dropWhile p ≠ [] → (l.dropWhile p).getLast? = l.getLast? := by
  intro l
  induction l with
  | nil => intro h; simp at h
  | cons a t ih =>
    intro h
    by_cases ha : p a = true
    · rw [List.dropWhile_cons, if_pos ha] at h ⊢
      rw [ih h]
      cases t with
      | nil => exact absurd rfl h
      | cons b t' => rw [List.getLast?_cons_cons]
    · rw [List.dropWhile_cons, if_neg ha]

theorem mem_stripBoth {p : Nat → Bool} {l : PyStr} {c : Nat}
    (h : c ∈ stripBoth p l) : c ∈ l := by
  unfold stripBoth at h
  rw [List.mem_reverse] at h
  have h2 := mem_of_mem_dropWhile h
  rw [List.mem_reverse] at h2
  exact mem_of_mem_dropWhile h2

theorem stripBoth_all_false {p : Nat → Bool} {l : PyStr}
    (h : ∀ c ∈ l, p c = false) : stripBoth p l = l := by
  unfold stripBoth
  rw [dropWhile_all_false h,
    dropWhile_all_false (fun c hc => h c (List.mem_reverse.mp hc)),
    List.reverse_reverse]

theorem stripBoth_idem (p : Nat → Bool) (l : PyStr) :
    stripBoth p (stripBoth p l) = stripBoth p l := by
  by_cases hr : stripBoth p l = []
  · rw [hr]; rfl
  · have hdrop : (stripBoth p l).dropWhile p = stripBoth p l := by
      obtain ⟨c, t, hct⟩ : ∃ c t, stripBoth p l = c :: t := by
        cases hsb : stripBoth p l with
        | nil => exact absurd hsb hr
        | cons c t => exact ⟨c, t, rfl⟩
      refine head?_false_dropWhile (c := c) (by rw [hct]; rfl) ?_
      have h1 : (stripBoth p l).head? = some c := by rw [hct]; rfl
      unfold stripBoth at h1
      rw [List.head?_reverse] at h1
      have hw : (l.dropWhile p).reverse.dropWhile p ≠ [] := by
        intro hnil
        unfold stripBoth at hr
        rw [hnil] at hr
        exact hr rfl
      rw [getLast?_dropWhile hw, List.getLast?_reverse] at h1
      cases hm : l.dropWhile p with
      | nil => rw [hm] at h1; cases h1
      | cons c0 t0 =>
        rw [hm] at h1
        have hc0 : c0 = c := by simpa using h1
        subst hc0
        exact head?_dropWhile_false hm
    unfold stripBoth
    unfold stripBoth at hdrop
    rw [hdrop, List.reverse_reverse, dropWhile_idem]

theorem map_id_of_forall {f : Nat → Nat} : ∀ {l : PyStr},
    (∀ c ∈ l, f c = c) → l.map f = l := by
  intro l
  induction l with
  | nil => intro _; rfl
  | cons a t ih =>
    intro h
    rw [List.map_cons, h a (by simp), ih fun c hc => h c (List.mem_cons_of_mem a hc)]

theorem filter_true_of_forall {p : Nat → Bool} : ∀ {l : PyStr},
    (∀ c ∈ l, p c = true) → l.filter p = l := by
  intro l
  induction l with
  | nil => intro _; rfl
  | cons a t ih =>
    intro h
    rw [List.filter_cons, if_pos (h a (by simp)), ih fun c hc => h c (List.mem_cons_of_mem a hc)]

/-- The slug pipeline before the fallback: strip, lower, hyphenate,
restrict the character class, strip separators. -/
def slugCore (text : PyStr) (allowDot : Bool) : PyStr :=
  stripBoth sepChar ((((stripBoth pyIsSpace text).map pyLower).map fun c =>
    if c == 32 then 45 else c).filter (allowedChar allowDot))

theorem _slugify_eq (text fallback : PyStr) (allowDot : Bool) :
    _slugify text fallback allowDot =
      if (slugCore text allowDot).isEmpty then fallback else slugCore text allowDot := rfl

theorem allowed_char_props {c : Nat} (h : allowedChar false c = true) :
    pyIsSpace c = false ∧ pyLower c = c ∧ (c == 32) = false := by
  simp only [allowedChar, Bool.false_and, Bool.or_false, Bool.or_eq_true,
    decide_eq_true_eq, beq_iff_eq] at h
  refine ⟨?_, ?_, ?_⟩
  · simp only [pyIsSpace, Bool.or_eq_false_iff, beq_eq_false_iff_ne, ne_eq]
    omega
  · simp only [pyLower]
    split
    · omega
    · rfl
  · simp only [beq_eq_false_iff_ne, ne_eq]
    omega

theorem slugCore_mem {text : PyStr} {d : Bool} {c : Nat}
    (h : c ∈ slugCore text d) : allowedChar d c = true := by
  unfold slugCore at h
  exact (List.mem_filter.mp (mem_stripBoth h)).2

theorem slugCore_idem (text : PyStr) : slugCore (slugCore text false) false = slugCore text false := by
  have hmem : ∀ c ∈ slugCore text false, allowedChar false c = true :=
    fun c hc => slugCore_mem hc
  conv_lhs => rw [slugCore]
  rw [stripBoth_all_false fun c hc => (allowed_char_props (hmem c hc)).1,
    map_id_of_forall fun c hc => (allowed_char_props (hmem c hc)).2.1,
    map_id_of_forall fun c hc => ?_,
    filter_true_of_forall hmem]
  · conv_lhs => rw [slugCore]
    exact stripBoth_idem _ _
  · rw [(allowed_char_props (hmem c hc)).2.2]
    simp

theorem pyIsSpace_pyLower (c : Nat) : pyIsSpace (pyLower c) = pyIsSpace c := by
  by_cases h : 65 ≤ c ∧ c ≤ 90
  · have h1 : pyIsSpace (c + 32) = false := by simp only [pyIsSpace]; simp; omega
    have h2 : pyIsSpace c = false := by simp only [pyIsSpace]; simp; omega
    rw [pyLower, if_pos h, h1, h2]
  · rw [pyLower, if_neg h]

theorem stripBoth_map_lower (l : PyStr) :
    stripBoth pyIsSpace (l.map pyLower) = (stripBoth pyIsSpace l).map pyLower := by
  have hcomp : (pyIsSpace ∘ pyLower) = pyIsSpace := funext fun c => pyIsSpace_pyLower c
  unfold stripBoth
  rw [List.dropWhile_map, hcomp, ← List.map_reverse, List.dropWhile_map, hcomp,
    ← List.map_reverse]

theorem slugCore_lower_congr {x y : PyStr} (d : Bool) (h : x.map pyLower = y.map pyLower) :
    slugCore x d = slugCore y d := by
  have key : (stripBoth pyIsSpace x).map pyLower = (stripBoth pyIsSpace y).map pyLower := by
    rw [← stripBoth_map_lower, ← stripBoth_map_lower, h]
  unfold slugCore
  rw [key]

theorem stripBoth_ws_pad (x w1 w2 : PyStr)
    (h1 : ∀ c ∈ w1, pyIsSpace c = true) (h2 : ∀ c ∈ w2, pyIsSpace c = true) :
    stripBoth pyIsSpace (w1 ++ x ++ w2) = stripBoth pyIsSpace x := by
  unfold stripBoth
  rw [List.append_assoc, List.dropWhile_append, dropWhile_all_true h1]
  simp only [List.isEmpty_nil, if_true]
  by_cases hx : x.dropWhile pyIsSpace = []
  · rw [List.dropWhile_append, hx]
    simp only [List.isEmpty_nil, if_true]
    rw [dropWhile_all_true h2]
  · have hxe : (x.dropWhile pyIsSpace).isEmpty = false := by simpa using hx
    rw [List.dropWhile_append, hxe]
    simp only [Bool.false_eq_true, if_false]
    rw [List.reverse_append, List.dropWhile_append,
      dropWhile_all_true fun c hc => h2 c (List.mem_reverse.mp hc)]
    simp only [List.isEmpty_nil, if_true]

theorem slugCore_ws_pad (x w1 w2 : PyStr) (d : Bool)
    (h1 : ∀ c ∈ w1, pyIsSpace c = true) (h2 : ∀ c ∈ w2, pyIsSpace c = true) :
    slugCore (w1 ++ x ++ w2) d = slugCore x d := by
  unfold slugCore
  rw [stripBoth_ws_pad x w1 w2 h1 h2]

/-- C6 counterexample: the claim says `slugify` "yields the same slug for
variants of the same name differing only in letter case or whitespace".
`"a  b"` and `"a b"` differ only in whitespace (they are equal after
deleting whitespace and contain no letters of differing case), yet their
slugs differ: interior runs of spaces become runs of hyphens. -/
theorem slugify_interior_whitespace_counterexample :
    ("a  b".codes).filter (fun c => !pyIsSpace c) =
      ("a b".codes).filter (fun c => !pyIsSpace c) ∧
    _model_slug ("a  b".codes) ≠ _model_slug ("a b".codes) := by
  constructor
  · decide
  · decide

/-- C6 (amended): `slugify` is idempotent on model names, is insensitive to
letter case, and is insensitive to leading and trailing whitespace; but
names differing in interior whitespace may map to different slugs, because
every interior space becomes one hyphen. -/
theorem slugify_idem_case_insensitive_amended :
    (∀ s : PyStr, _model_slug (_model_slug s) = _model_slug s) ∧
    (∀ x y : PyStr, x.map pyLower = y.map pyLower → _model_slug x = _model_slug y) ∧
    (∀ x w1 w2 : PyStr, (∀ c ∈ w1, pyIsSpace c = true) → (∀ c ∈ w2, pyIsSpace c = true) →
      _model_slug (w1 ++ x ++ w2) = _model_slug x) := by
  refine ⟨?_, ?_, ?_⟩
  · intro s
    unfold _model_slug
    rw [_slugify_eq s ("model".codes) false]
    by_cases h : (slugCore s false).isEmpty
    · rw [if_pos h]
      decide
    · rw [if_neg h, _slugify_eq, slugCore_idem, if_neg h]
  · intro x y h
    unfold _model_slug
    rw [_slugify_eq, _slugify_eq, slugCore_lower_congr false h]
  · intro x w1 w2 h1 h2
    unfold _model_slug
    rw [_slugify_eq, _slugify_eq, slugCore_ws_pad x w1 w2 false h1 h2]

/-- Witness for C6 (amended) at concrete inputs. -/
theorem slugify_idem_case_insensitive_amended_witness :
    _model_slug (_model_slug ("My Model!".codes)) = _model_slug ("My Model!".codes) ∧
    _model_slug ("MY MODEL".codes) = _model_slug ("my model".codes) ∧
    _model_slug (" ".codes ++ "my model".codes ++ "  ".codes) = _model_slug ("my model".codes) :=
  ⟨slugify_idem_case_insensitive_amended.1 ("My Model!".codes),
   slugify_idem_case_insensitive_amended.2.1 ("MY MODEL".codes) ("my model".codes) (by decide),
   slugify_idem_case_insensitive_amended.2.2 ("my model".codes) (" ".codes) ("  ".codes)
     (by decide) (by decide)⟩

/-- The numeric suffixes of the index entries whose version token matches
the auto-generated pattern `v` + digits. -/
def autoSuffixes (versions : List VersionEntry) : List Nat :=
  versions.filterMap fun e => autoSuffix e.version

theorem foldr_max_shift (S : List Nat) : ∀ a b : Nat, S.foldr max (max a b) = max b (S.foldr max a) := by
  induction S with
  | nil => intro a b; exact Nat.max_comm a b
  | cons c S' ih =>
    intro a b
    simp only [List.foldr_cons]
    rw [ih a b]
    omega

theorem foldl_max_eq_foldr (versions : List VersionEntry) : ∀ acc : Nat,
    versions.foldl (fun m e => match autoSuffix e.version with
      | some k => max m k | none => m) acc = (autoSuffixes versions).foldr max acc := by
  induction versions with
  | nil => intro acc; rfl
  | cons e t ih =>
    intro acc
    cases h : autoSuffix e.version with
    | none => simp only [List.foldl_cons, h, autoSuffixes, List.filterMap_cons, ih]
    | some k =>
      simp only [List.foldl_cons, h, autoSuffixes, List.filterMap_cons, List.foldr_cons]
      rw [ih (max acc k)]
      exact foldr_max_shift _ acc k

theorem autoSuffixes_eq_map (versions : List VersionEntry) :
    autoSuffixes versions = (versions.map fun e => e.version).filterMap autoSuffix := by
  induction versions with
  | nil => rfl
  | cons e t ih => simp only [autoSuffixes, List.filterMap_cons, List.map_cons] at ih ⊢; rw [ih]

/-- A registry state with nothing on disk yet. -/
def emptyState : RegState := ⟨[], [], [], [], [], []⟩

/-- Publish arguments with no explicit version (auto allocation). -/
def autoPublishArgs (modelName : PyStr) (stage : Stage) : PublishArgs :=
  { modelName := modelName, stage := stage, sourceExists := true, payloadFiles := [],
    version := none, setLatest := true, notes := none, sourceMeta := .generic [],
    convertToStd := false, stdOutcome := none }

/-- The version token of a successful publish outcome. -/
def pubVersion (x : RegState × Except RegError PublishResult) : Option PyStr :=
  match x.2 with
  | .ok r => some r.version
  | .error _ => none

/-- A version entry carrying only its token (other fields fixed). -/
def sampleEntry (v : PyStr) : VersionEntry :=
  { version := v, createdAt := "t".codes, notes := none, bundle := "b".codes,
    manifest := "mf".codes, source := .generic [], standardArtifacts := none }

def emptyIndex : RegistryIndex :=
  { modelName := "m".codes, stage := .dev, latest := none, versions := [], updatedAt := "t".codes }

def gapIndex : RegistryIndex :=
  { emptyIndex with versions := [sampleEntry ("v0001".codes), sampleEntry ("v0003".codes)] }

/-- C3: the auto-allocated next version is `v` followed by the zero-padded
successor of the maximum numeric suffix over entries matching `v` + digits
(`v0001` when no entry matches); gaps are never backfilled, so versions
`v0001` and `v0003` allocate `v0004` next; and three successive automatic
publishes from an empty registry yield `v0001`, `v0002`, `v0003`. -/
theorem next_version_allocation :
    (∀ index : RegistryIndex,
      _next_version index = vToken ((autoSuffixes index.versions).foldr max 0 + 1)) ∧
    (∀ index : RegistryIndex, autoSuffixes index.versions = [] →
      _next_version index = "v0001".codes) ∧
    (∀ index : RegistryIndex,
      (index.versions.map fun e => e.version) = ["v0001".codes, "v0003".codes] →
      _next_version index = "v0004".codes) ∧
    (pubVersion (publish_from_local emptyState ("t0".codes)
        (autoPublishArgs ("m".codes) .dev)) = some ("v0001".codes) ∧
      pubVersion (publish_from_local
        (publish_from_local emptyState ("t0".codes) (autoPublishArgs ("m".codes) .dev)).1
        ("t1".codes) (autoPublishArgs ("m".codes) .dev)) = some ("v0002".codes) ∧
      pubVersion (publish_from_local
        (publish_from_local
          (publish_from_local emptyState ("t0".codes) (autoPublishArgs ("m".codes) .dev)).1
          ("t1".codes) (autoPublishArgs ("m".codes) .dev)).1
        ("t2".codes) (autoPublishArgs ("m".codes) .dev)) = some ("v0003".codes)) := by
  have hgen : ∀ index : RegistryIndex,
      _next_version index = vToken ((autoSuffixes index.versions).foldr max 0 + 1) := by
    intro index
    unfold _next_version
    rw [foldl_max_eq_foldr]
  refine ⟨hgen, ?_, ?_, ?_, ?_, ?_⟩
  · intro index h
    rw [hgen, h]
    decide
  · intro index h
    rw [hgen, autoSuffixes_eq_map, h]
    decide
  · decide
  · decide
  · decide

/-- Witness for C3 at concrete indices. -/
theorem next_version_allocation_witness :
    _next_version emptyIndex = "v0001".codes ∧ _next_version gapIndex = "v0004".codes :=
  ⟨next_version_allocation.2.1 emptyIndex (by decide),
   next_version_allocation.2.2.1 gapIndex (by decide)⟩

theorem _write_index_indices (st : RegState) (stage : Stage) (modelName now : PyStr)
    (index : RegistryIndex) :
    (_write_index st stage modelName now index).indices =
      setKey st.indices (stage, _model_slug modelName) { index with updatedAt := now } := by
  unfold _write_index
  cases h : index.latest with
  | none => rfl
  | some l =>
    simp only [h]
    split <;> rfl

theorem update_updatedAt_ite (P : Prop) [Decidable P] (A B : RegistryIndex) (now : PyStr) :
    { (if P then A else B) with updatedAt := now } =
      if P then { A with updatedAt := now } else { B with updatedAt := now } := by
  split <;> rfl

/-- The index document present after a successful publish: the previous
document (or the default one) with the new entry appended and `latest`
updated when requested or previously unset. -/
def publishedIndex (st : RegState) (now : PyStr) (a : PublishArgs)
    (entry : VersionEntry) : RegistryIndex :=
  { modelName := (_read_index st a.stage a.modelName now).modelName
    stage := (_read_index st a.stage a.modelName now).stage
    latest := if a.setLatest || !pyTruthy (_read_index st a.stage a.modelName now).latest
              then some (_resolve_version (_read_index st a.stage a.modelName now) a.version)
              else (_read_index st a.stage a.modelName now).latest
    versions := (_read_index st a.stage a.modelName now).versions ++ [entry]
    updatedAt := now }

theorem publish_ok_spec {st : RegState} {now : PyStr} {a : PublishArgs} {st' : RegState}
    {res : PublishResult} (h : publish_from_local st now a = (st', Except.ok res)) :
    ∃ entry : VersionEntry,
      entry.version = res.version ∧
      res.version = _resolve_version (_read_index st a.stage a.modelName now) a.version ∧
      lookupKey st'.indices (a.stage, _model_slug a.modelName) =
        some (publishedIndex st now a entry) ∧
      (∀ k : ModelKey, k ≠ (a.stage, _model_slug a.modelName) →
        lookupKey st'.indices k = lookupKey st.indices k) ∧
      res.latest = (publishedIndex st now a entry).latest := by
  unfold publish_from_local at h
  by_cases hs : a.sourceExists = false
  · rw [if_pos hs] at h
    exact absurd (congrArg Prod.snd h) (by simp)
  · rw [if_neg hs] at h
    dsimp only at h
    by_cases hd : (a.stage, _model_slug a.modelName,
        _resolve_version (_read_index st a.stage a.modelName now) a.version) ∈ st.versionDirs
    · rw [if_pos hd] at h
      exact absurd (congrArg Prod.snd h) (by simp)
    · rw [if_neg hd] at h
      by_cases hc : a.convertToStd = true ∧ a.stdOutcome = none
      · rw [if_pos hc] at h
        exact absurd (congrArg Prod.snd h) (by simp)
      · rw [if_neg hc] at h
        have hW := congrArg Prod.fst h
        have hR := congrArg Prod.snd h
        dsimp only at hW hR
        have hres : _ = res := Except.ok.inj hR
        subst hres
        subst hW
        refine ⟨_build_version_entry
            (_resolve_version (_read_index st a.stage a.modelName now) a.version) now a.notes
            (_build_ftp_paths a.stage (_model_slug a.modelName)
              (_resolve_version (_read_index st a.stage a.modelName now) a.version)
              ("bundle.tar.gz".codes)).bundle
            (_build_ftp_paths a.stage (_model_slug a.modelName)
              (_resolve_version (_read_index st a.stage a.modelName now) a.version)
              ("bundle.tar.gz".codes)).manifest
            a.sourceMeta (if a.convertToStd = true then a.stdOutcome else none),
          rfl, rfl, ?_, ?_, ?_⟩
        · rw [_write_index_indices, lookupKey_setKey_self]
          congr 1
          rw [update_updatedAt_ite]
          unfold publishedIndex
          split <;> rfl
        · intro k hk
          rw [_write_index_indices, lookupKey_setKey_ne _ _ _ _ hk]
        · unfold publishedIndex
          split <;> rfl

/-- The index invariant of the specification: a non-null `latest` names the
`version` of some entry in `versions`. -/
def IndexOk (idx : RegistryIndex) : Prop :=
  ∀ l : PyStr, idx.latest = some l → ∃ e ∈ idx.versions, e.version = l

/-- Every index document on disk satisfies the index invariant. -/
def StateOk (st : RegState) : Prop :=
  ∀ (k : ModelKey) (idx : RegistryIndex), lookupKey st.indices k = some idx → IndexOk idx

theorem read_index_ok {st : RegState} (hInv : StateOk st) (stage : Stage)
    (modelName now : PyStr) : IndexOk (_read_index st stage modelName now) := by
  unfold _read_index
  cases hl : lookupKey st.indices (stage, _model_slug modelName) with
  | some idx => exact hInv _ _ hl
  | none =>
    intro l hl2
    exact absurd hl2 (by simp [_default_index])

theorem publishedIndex_ok {st : RegState} {now : PyStr} {a : PublishArgs}
    {entry : VersionEntry} (h : IndexOk (_read_index st a.stage a.modelName now))
    (hv : entry.version = _resolve_version (_read_index st a.stage a.modelName now) a.version) :
    IndexOk (publishedIndex st now a entry) := by
  intro l hl
  unfold publishedIndex at hl ⊢
  dsimp only at hl ⊢
  split at hl
  · obtain rfl : _resolve_version (_read_index st a.stage a.modelName now) a.version = l :=
      Option.some.inj hl
    exact ⟨entry, List.mem_append_right _ (by simp), hv⟩
  · obtain ⟨e, he, hev⟩ := h l hl
    exact ⟨e, List.mem_append_left _ he, hev⟩

/-- C1: every successful publish, and every successful promote, preserves
the invariant that a non-null `latest` equals the `version` of some entry
in `versions`, and is append-only on the index: the touched index's
`versions` becomes exactly the old list plus one new entry (whose token is
the operation's resolved version), and no other index document changes. -/
theorem publish_promote_preserve_invariant :
    (∀ (st : RegState) (now : PyStr) (a : PublishArgs) (st' : RegState) (res : PublishResult),
      StateOk st → publish_from_local st now a = (st', Except.ok res) →
      StateOk st' ∧
      ∃ entry : VersionEntry, entry.version = res.version ∧
        (lookupKey st'.indices (a.stage, _model_slug a.modelName)).map RegistryIndex.versions =
          some ((_read_index st a.stage a.modelName now).versions ++ [entry]) ∧
        (∀ k : ModelKey, k ≠ (a.stage, _model_slug a.modelName) →
          lookupKey st'.indices k = lookupKey st.indices k)) ∧
    (∀ (st : RegState) (now : PyStr) (p : PromoteArgs) (st' : RegState) (res : PublishResult),
      StateOk st → promote st now p = (st', Except.ok res) →
      StateOk st' ∧
      ∃ entry : VersionEntry, entry.version = res.version ∧
        (lookupKey st'.indices (p.toStage, _model_slug p.modelName)).map RegistryIndex.versions =
          some ((_read_index st p.toStage p.modelName now).versions ++ [entry]) ∧
        (∀ k : ModelKey, k ≠ (p.toStage, _model_slug p.modelName) →
          lookupKey st'.indices k = lookupKey st.indices k)) := by
  have hpub : ∀ (st : RegState) (now : PyStr) (a : PublishArgs) (st' : RegState)
      (res : PublishResult),
      StateOk st → publish_from_local st now a = (st', Except.ok res) →
      StateOk st' ∧
      ∃ entry : VersionEntry, entry.version = res.version ∧
        (lookupKey st'.indices (a.stage, _model_slug a.modelName)).map RegistryIndex.versions =
          some ((_read_index st a.stage a.modelName now).versions ++ [entry]) ∧
        (∀ k : ModelKey, k ≠ (a.stage, _model_slug a.modelName) →
          lookupKey st'.indices k = lookupKey st.indices k) := by
    intro st now a st' res hInv h
    obtain ⟨entry, he1, he2, hlook, hother, hlat⟩ := publish_ok_spec h
    constructor
    · intro k idx hk
      by_cases hkey : k = (a.stage, _model_slug a.modelName)
      · subst hkey
        rw [hlook] at hk
        obtain rfl := Option.some.inj hk
        exact publishedIndex_ok (read_index_ok hInv _ _ _) (he1.trans he2)
      · rw [hother k hkey] at hk
        exact hInv _ _ hk
    · exact ⟨entry, he1, by rw [hlook]; rfl, hother⟩
  refine ⟨hpub, ?_⟩
  intro st now p st' res hInv h
  unfold promote at h
  by_cases hfe : p.fromStage = p.toStage
  · rw [if_pos hfe] at h
    exact absurd (congrArg Prod.snd h) (by simp)
  · rw [if_neg hfe] at h
    cases hres : resolve st p.fromStage p.modelName p.version now with
    | error e =>
      rw [hres] at h
      exact absurd (congrArg Prod.snd h) (by simp)
    | ok src =>
      rw [hres] at h
      exact hpub st now _ st' res hInv h

deriving instance DecidableEq for Except

/-- A placeholder publish outcome, used only to extract the payload of a
successful concrete run. -/
def dummyResult : PublishResult :=
  { modelName := [], stage := .dev, version := [], latest := none, ftpRoot := [],
    bundlePath := [], manifestPath := [], latestPath := [], indexPath := [],
    versionCount := 0, standardArtifactPath := none }

def okResult (x : RegState × Except RegError PublishResult) : PublishResult :=
  match x.2 with
  | .ok r => r
  | .error _ => dummyResult

def promoteArgsSample : PromoteArgs :=
  { modelName := "m".codes, fromStage := .dev, toStage := .release, version := "latest".codes,
    targetVersion := none, setLatest := true, notes := none, promotePayload := [] }

/-- Witness for C1: a concrete publish into the empty registry and a
concrete promotion of its result both preserve the invariant. -/
theorem publish_promote_preserve_invariant_witness :
    StateOk (publish_from_local emptyState ("t0".codes) (autoPublishArgs ("m".codes) Stage.dev)).1 ∧
    StateOk (promote (publish_from_local emptyState ("t0".codes)
      (autoPublishArgs ("m".codes) Stage.dev)).1 ("t1".codes) promoteArgsSample).1 := by
  have h1 := publish_promote_preserve_invariant.1 emptyState ("t0".codes)
    (autoPublishArgs ("m".codes) Stage.dev)
    (publish_from_local emptyState ("t0".codes) (autoPublishArgs ("m".codes) Stage.dev)).1
    (okResult (publish_from_local emptyState ("t0".codes) (autoPublishArgs ("m".codes) Stage.dev)))
    (fun k idx h => by simp [emptyState, lookupKey] at h)
    (by decide)
  refine ⟨h1.1, ?_⟩
  have h2 := publish_promote_preserve_invariant.2
    (publish_from_local emptyState ("t0".codes) (autoPublishArgs ("m".codes) Stage.dev)).1
    ("t1".codes) promoteArgsSample
    (promote (publish_from_local emptyState ("t0".codes)
      (autoPublishArgs ("m".codes) Stage.dev)).1 ("t1".codes) promoteArgsSample).1
    (okResult (promote (publish_from_local emptyState ("t0".codes)
      (autoPublishArgs ("m".codes) Stage.dev)).1 ("t1".codes) promoteArgsSample))
    h1.1 (by decide)
  exact h2.1

/-- C2: when the resolved version's directory already exists on disk,
publish fails with `VersionAlreadyExists` and the whole registry state —
the index, its `latest`, and every previously published entry — is left
exactly as it was. -/
theorem publish_existing_version_atomic_failure (st : RegState) (now : PyStr) (a : PublishArgs)
    (hsrc : a.sourceExists = true)
    (hex : (a.stage, _model_slug a.modelName,
      _resolve_version (_read_index st a.stage a.modelName now) a.version) ∈ st.versionDirs) :
    publish_from_local st now a = (st, Except.error RegError.versionAlreadyExists) := by
  unfold publish_from_local
  rw [if_neg (by simp [hsrc])]
  dsimp only
  rw [if_pos hex]

def c2State : RegState := { emptyState with versionDirs := [(.dev, "m".codes, "v0001".codes)] }

def c2Args : PublishArgs := { autoPublishArgs ("m".codes) .dev with version := some ("v0001".codes) }

/-- Witness for C2 at a concrete state whose version directory exists. -/
theorem publish_existing_version_atomic_failure_witness :
    publish_from_local c2State ("t0".codes) c2Args =
      (c2State, Except.error RegError.versionAlreadyExists) :=
  publish_existing_version_atomic_failure c2State ("t0".codes) c2Args (by decide) (by decide)

theorem _slugify_ne_nil {t fb : PyStr} {d : Bool} (h : fb ≠ []) : _slugify t fb d ≠ [] := by
  rw [_slugify_eq]
  split
  · exact h
  · next hne => simpa using hne

theorem _resolve_version_ne_nil (idx : RegistryIndex) (req : Option PyStr) :
    _resolve_version idx req ≠ [] := by
  unfold _resolve_version
  cases req with
  | none => unfold _next_version vToken; simp
  | some r =>
    dsimp only
    split
    · unfold _next_version vToken; simp
    · unfold _version_slug
      exact _slugify_ne_nil (by decide)

theorem pyTruthy_some_ne {v : PyStr} (hv : v ≠ []) : pyTruthy (some v) = true := by
  cases v with
  | nil => exact absurd rfl hv
  | cons c t => rfl

/-- What `resolve(stage, model, "latest")` returns when the index document
has a non-empty `latest` pointer naming an existing entry. -/
theorem resolve_latest_spec {st : RegState} {stage : Stage} {modelName now : PyStr}
    {idx : RegistryIndex} {v : PyStr}
    (hidx : lookupKey st.indices (stage, _model_slug modelName) = some idx)
    (hne : idx.versions ≠ [])
    (hlat : idx.latest = some v) (hv : v ≠ [])
    (hentry : ∃ e ∈ idx.versions, e.version = v) :
    ∃ r : ResolveResult, resolve st stage modelName ("latest".codes) now = Except.ok r ∧
      r.resolvedVersion = v ∧ r.latest = some v := by
  unfold resolve get_model _read_index
  rw [hidx]
  dsimp only
  rw [if_neg (by simpa using hne)]
  dsimp only
  rw [if_pos (Or.inr rfl), hlat]
  dsimp only
  rw [if_neg (by simpa using hv)]
  obtain ⟨e, he, hev⟩ := hentry
  cases hfind : idx.versions.find? (fun e => decide (e.version = v)) with
  | none =>
    rw [List.find?_eq_none] at hfind
    exact absurd (by simpa using hev) (hfind e he)
  | some e' =>
    exact ⟨_, rfl, rfl, rfl⟩

/-- C4: after a publish with `setLatest = true`, resolving `"latest"`
returns that publish's version; a subsequent publish with
`setLatest = false` onto an index whose `latest` is set leaves `"latest"`
resolving to the earlier version; and when the index previously had no
truthy `latest`, a publish with `setLatest = false` still becomes the new
`latest`. -/
theorem latest_pointer_behavior :
    (∀ (st : RegState) (now : PyStr) (a : PublishArgs) (st' : RegState) (res : PublishResult)
        (now2 : PyStr),
      a.setLatest = true → publish_from_local st now a = (st', Except.ok res) →
      ∃ r : ResolveResult, resolve st' a.stage a.modelName ("latest".codes) now2 = Except.ok r ∧
        r.resolvedVersion = res.version) ∧
    (∀ (st : RegState) (now : PyStr) (a : PublishArgs) (st' : RegState) (res : PublishResult)
        (now2 : PyStr) (idx : RegistryIndex) (v : PyStr),
      lookupKey st.indices (a.stage, _model_slug a.modelName) = some idx →
      idx.latest = some v → v ≠ [] → (∃ e ∈ idx.versions, e.version = v) →
      a.setLatest = false → publish_from_local st now a = (st', Except.ok res) →
      ∃ r : ResolveResult, resolve st' a.stage a.modelName ("latest".codes) now2 = Except.ok r ∧
        r.resolvedVersion = v) ∧
    (∀ (st : RegState) (now : PyStr) (a : PublishArgs) (st' : RegState) (res : PublishResult),
      pyTruthy (_read_index st a.stage a.modelName now).latest = false →
      a.setLatest = false → publish_from_local st now a = (st', Except.ok res) →
      res.latest = some res.version) := by
  refine ⟨?_, ?_, ?_⟩
  · intro st now a st' res now2 hset h
    obtain ⟨entry, he1, he2, hlook, hother, hlat⟩ := publish_ok_spec h
    have hPlat : (publishedIndex st now a entry).latest = some res.version := by
      unfold publishedIndex
      rw [he2]
      simp [hset]
    refine (resolve_latest_spec hlook (by simp [publishedIndex]) hPlat ?_ ?_).imp
      fun r hr => ⟨hr.1, hr.2.1⟩
    · rw [he2]
      exact _resolve_version_ne_nil _ _
    · exact ⟨entry, by simp [publishedIndex], he1⟩
  · intro st now a st' res now2 idx v hidx hlat hv hentry hset h
    obtain ⟨entry, he1, he2, hlook, hother, hlatr⟩ := publish_ok_spec h
    have hread : _read_index st a.stage a.modelName now = idx := by
      unfold _read_index
      rw [hidx]
    have hPlat : (publishedIndex st now a entry).latest = some v := by
      unfold publishedIndex
      rw [hread, hset, hlat, pyTruthy_some_ne hv]
      simp
    obtain ⟨e, he, hev⟩ := hentry
    refine (resolve_latest_spec hlook (by simp [publishedIndex]) hPlat hv
      ⟨e, ?_, hev⟩).imp fun r hr => ⟨hr.1, hr.2.1⟩
    simp only [publishedIndex, hread]
    exact List.mem_append_left _ he
  · intro st now a st' res hfalsy hset h
    obtain ⟨entry, he1, he2, hlook, hother, hlatr⟩ := publish_ok_spec h
    rw [hlatr]
    unfold publishedIndex
    rw [hfalsy, hset, he2]
    simp

/-- Read the index document stored for a key, defaulting to the empty
sample index; used only to name concrete lookups in witnesses. -/
def storedIndex (st : RegState) (k : ModelKey) : RegistryIndex :=
  (lookupKey st.indices k).getD emptyIndex

/-- The registry state and result after one automatic publish of model `m`
into the empty registry. -/
def stPub1 : RegState :=
  (publish_from_local emptyState ("t0".codes) (autoPublishArgs ("m".codes) Stage.dev)).1

def resPub1 : PublishResult :=
  okResult (publish_from_local emptyState ("t0".codes) (autoPublishArgs ("m".codes) Stage.dev))

def argsNoLatest : PublishArgs := { autoPublishArgs ("m".codes) Stage.dev with setLatest := false }

def stPub2 : RegState := (publish_from_local stPub1 ("t1".codes) argsNoLatest).1

def resPub2 : PublishResult := okResult (publish_from_local stPub1 ("t1".codes) argsNoLatest)

def resPub3 : PublishResult := okResult (publish_from_local emptyState ("t0".codes) argsNoLatest)

/-- Witness for C4: a first publish with `setLatest = true` into the empty
registry, then a second publish with `setLatest = false`, evaluated
concretely. -/
theorem latest_pointer_behavior_witness :
    (∃ r : ResolveResult, resolve stPub1 Stage.dev ("m".codes) ("latest".codes) ("t2".codes) =
        Except.ok r ∧ r.resolvedVersion = resPub1.version) ∧
    (∃ r : ResolveResult, resolve stPub2 Stage.dev ("m".codes) ("latest".codes) ("t2".codes) =
        Except.ok r ∧ r.resolvedVersion = "v0001".codes) ∧
    resPub3.latest = some resPub3.version := by
  refine ⟨?_, ?_, ?_⟩
  · exact latest_pointer_behavior.1 emptyState ("t0".codes)
      (autoPublishArgs ("m".codes) Stage.dev) stPub1 resPub1 ("t2".codes) rfl (by decide)
  · exact latest_pointer_behavior.2.1 stPub1 ("t1".codes) argsNoLatest stPub2 resPub2
      ("t2".codes) (storedIndex stPub1 (Stage.dev, "m".codes)) ("v0001".codes)
      (by decide) (by decide) (by decide) (by decide) rfl (by decide)
  · exact latest_pointer_behavior.2.2 emptyState ("t0".codes) argsNoLatest
      (publish_from_local emptyState ("t0".codes) argsNoLatest).1 resPub3 (by decide) rfl
      (by decide)

/-- C9: publishing does not treat the requested version as a sentinel: a
requested version `"latest"` is slugified verbatim and creates a new
version whose token is literally `latest`, appended to the index; only the
read-side resolve interprets an empty or `"latest"` request as the latest
pointer. -/
theorem publish_literal_latest_token :
    (∀ (st : RegState) (now : PyStr) (a : PublishArgs) (st' : RegState) (res : PublishResult),
      a.version = some ("latest".codes) →
      publish_from_local st now a = (st', Except.ok res) →
      res.version = "latest".codes ∧
      ∃ entry : VersionEntry, entry.version = "latest".codes ∧
        (lookupKey st'.indices (a.stage, _model_slug a.modelName)).map RegistryIndex.versions =
          some ((_read_index st a.stage a.modelName now).versions ++ [entry])) ∧
    (∀ (st : RegState) (stage : Stage) (modelName now : PyStr) (idx : RegistryIndex) (v : PyStr),
      lookupKey st.indices (stage, _model_slug modelName) = some idx →
      idx.versions ≠ [] → idx.latest = some v → v ≠ [] →
      (∃ e ∈ idx.versions, e.version = v) →
      ∃ r : ResolveResult, resolve st stage modelName ("latest".codes) now = Except.ok r ∧
        r.resolvedVersion = v) := by
  have hsl : ∀ idx : RegistryIndex,
      _resolve_version idx (some ("latest".codes)) = "latest".codes := by
    intro idx
    unfold _resolve_version
    dsimp only
    rw [if_neg (by decide)]
    decide
  refine ⟨?_, ?_⟩
  · intro st now a st' res hv h
    obtain ⟨entry, he1, he2, hlook, hother, hlat⟩ := publish_ok_spec h
    have hres' : res.version = "latest".codes := by rw [he2, hv, hsl]
    exact ⟨hres', entry, he1.trans hres', by rw [hlook]; rfl⟩
  · intro st stage modelName now idx v hidx hne hlat hv hentry
    exact (resolve_latest_spec hidx hne hlat hv hentry).imp fun r hr => ⟨hr.1, hr.2.1⟩

def argsLiteralLatest : PublishArgs :=
  { autoPublishArgs ("m".codes) Stage.dev with version := some ("latest".codes) }

/-- Witness for C9: publishing with requested version `"latest"` on top of
a registry whose latest is `v0001` creates the literal token, while
resolving `"latest"` there still follows the pointer. -/
theorem publish_literal_latest_token_witness :
    ((okResult (publish_from_local stPub1 ("t1".codes) argsLiteralLatest)).version =
        "latest".codes ∧
      ∃ entry : VersionEntry, entry.version = "latest".codes ∧
        (lookupKey (publish_from_local stPub1 ("t1".codes) argsLiteralLatest).1.indices
            (Stage.dev, _model_slug ("m".codes))).map RegistryIndex.versions =
          some ((_read_index stPub1 Stage.dev ("m".codes) ("t1".codes)).versions ++ [entry])) ∧
    (∃ r : ResolveResult, resolve stPub1 Stage.dev ("m".codes) ("latest".codes) ("t3".codes) =
        Except.ok r ∧ r.resolvedVersion = "v0001".codes) := by
  constructor
  · exact publish_literal_latest_token.1 stPub1 ("t1".codes) argsLiteralLatest
      (publish_from_local stPub1 ("t1".codes) argsLiteralLatest).1
      (okResult (publish_from_local stPub1 ("t1".codes) argsLiteralLatest)) rfl (by decide)
  · exact publish_literal_latest_token.2 stPub1 Stage.dev ("m".codes) ("t3".codes)
      (storedIndex stPub1 (Stage.dev, "m".codes)) ("v0001".codes)
      (by decide) (by decide) (by decide) (by decide) (by decide)

theorem _write_index_pointers_some (st : RegState) (stage : Stage) (modelName now : PyStr)
    {index : RegistryIndex} {l : PyStr} (h : index.latest = some l) (hne : l.isEmpty = false) :
    (_write_index st stage modelName now index).latestTxt =
      setKey st.latestTxt (stage, _model_slug modelName) l ∧
    (_write_index st stage modelName now index).latestJson =
      setKey st.latestJson (stage, _model_slug modelName)
        { modelName := modelName, stage := stage, latest := l,
          entry := index.versions.find? fun e => decide (e.version = l), updatedAt := now } := by
  unfold _write_index
  simp only [h, hne, Bool.false_eq_true, if_false]
  exact ⟨trivial, trivial⟩

theorem _write_index_pointers_none (st : RegState) (stage : Stage) (modelName now : PyStr)
    {index : RegistryIndex} (h : index.latest = none) :
    (_write_index st stage modelName now index).latestTxt =
      removeKey st.latestTxt (stage, _model_slug modelName) ∧
    (_write_index st stage modelName now index).latestJson =
      removeKey st.latestJson (stage, _model_slug modelName) := by
  unfold _write_index
  simp only [h]
  exact ⟨trivial, trivial⟩

/-- C7: writing an index with a non-empty `latest` stores exactly the
token in the plain-text pointer and stores the structured mirror
`{modelName, stage, latest, entry, updatedAt}` whose `entry` is the first
version entry matching `latest` (or null when none matches); writing an
index with no `latest` deletes both pointer files, and the delete is
idempotent — repeating it on the already-deleted state changes nothing. -/
theorem write_index_pointer_mirrors :
    (∀ (st : RegState) (stage : Stage) (modelName now : PyStr) (index : RegistryIndex)
        (l : PyStr), index.latest = some l → l ≠ [] →
      lookupKey (_write_index st stage modelName now index).latestTxt
          (stage, _model_slug modelName) = some l ∧
      lookupKey (_write_index st stage modelName now index).latestJson
          (stage, _model_slug modelName) =
        some { modelName := modelName, stage := stage, latest := l,
               entry := index.versions.find? fun e => decide (e.version = l),
               updatedAt := now }) ∧
    (∀ (st : RegState) (stage : Stage) (modelName now : PyStr) (index : RegistryIndex),
      index.latest = none →
      lookupKey (_write_index st stage modelName now index).latestTxt
          (stage, _model_slug modelName) = none ∧
      lookupKey (_write_index st stage modelName now index).latestJson
          (stage, _model_slug modelName) = none) ∧
    (∀ (st : RegState) (stage : Stage) (modelName now now2 : PyStr)
        (index index2 : RegistryIndex), index.latest = none → index2.latest = none →
      (_write_index (_write_index st stage modelName now index) stage modelName now2
          index2).latestTxt = (_write_index st stage modelName now index).latestTxt ∧
      (_write_index (_write_index st stage modelName now index) stage modelName now2
          index2).latestJson = (_write_index st stage modelName now index).latestJson) := by
  refine ⟨?_, ?_, ?_⟩
  · intro st stage modelName now index l h hl
    have hne : l.isEmpty = false := by
      cases l with
      | nil => exact absurd rfl hl
      | cons c t => rfl
    constructor
    · rw [(_write_index_pointers_some st stage modelName now h hne).1, lookupKey_setKey_self]
    · rw [(_write_index_pointers_some st stage modelName now h hne).2, lookupKey_setKey_self]
  · intro st stage modelName now index h
    constructor
    · rw [(_write_index_pointers_none st stage modelName now h).1, lookupKey_removeKey_self]
    · rw [(_write_index_pointers_none st stage modelName now h).2, lookupKey_removeKey_self]
  · intro st stage modelName now now2 index index2 h h2
    constructor
    · rw [(_write_index_pointers_none _ stage modelName now2 h2).1,
        (_write_index_pointers_none st stage modelName now h).1, removeKey_idem]
    · rw [(_write_index_pointers_none _ stage modelName now2 h2).2,
        (_write_index_pointers_none st stage modelName now h).2, removeKey_idem]

def idxLatest : RegistryIndex :=
  { emptyIndex with latest := some ("v0001".codes), versions := [sampleEntry ("v0001".codes)] }

/-- Witness for C7 at a concrete index with and without a latest pointer. -/
theorem write_index_pointer_mirrors_witness :
    lookupKey (_write_index emptyState Stage.dev ("m".codes) ("t0".codes) idxLatest).latestTxt
        (Stage.dev, _model_slug ("m".codes)) = some ("v0001".codes) ∧
    lookupKey (_write_index emptyState Stage.dev ("m".codes) ("t0".codes) emptyIndex).latestTxt
        (Stage.dev, _model_slug ("m".codes)) = none ∧
    (_write_index (_write_index emptyState Stage.dev ("m".codes) ("t0".codes) emptyIndex)
        Stage.dev ("m".codes) ("t1".codes) emptyIndex).latestTxt =
      (_write_index emptyState Stage.dev ("m".codes) ("t0".codes) emptyIndex).latestTxt :=
  ⟨(write_index_pointer_mirrors.1 emptyState Stage.dev ("m".codes) ("t0".codes) idxLatest
      ("v0001".codes) (by decide) (by decide)).1,
   (write_index_pointer_mirrors.2.1 emptyState Stage.dev ("m".codes) ("t0".codes) emptyIndex
      (by decide)).1,
   (write_index_pointer_mirrors.2.2 emptyState Stage.dev ("m".codes) ("t0".codes) ("t1".codes)
      emptyIndex emptyIndex (by decide) (by decide)).1⟩

theorem list_models_slugs (st : RegState) (stage : Stage) : ∀ l : List PyStr,
    ((l.filterMap fun slug => (lookupKey st.indices (stage, slug)).map fun index =>
        ({ modelName := index.modelName, stage := stage, latest := index.latest,
           versionCount := index.versions.length, updatedAt := index.updatedAt,
           slug := slug } : ModelSummary)).map fun s => s.slug) =
      l.filter fun slug => (lookupKey st.indices (stage, slug)).isSome := by
  intro l
  induction l with
  | nil => rfl
  | cons s t ih =>
    cases h : lookupKey st.indices (stage, s) with
    | none => simp [List.filterMap_cons, List.filter_cons, h, ih]
    | some idx => simp [List.filterMap_cons, List.filter_cons, h, ih]

/-- C10: `list_models` returns the per-model summaries in ascending
lexicographic order of the model directory name (the slug), and its output
is invariant under permutations of the directory enumeration order. -/
theorem list_models_sorted_and_order_independent :
    (∀ (st : RegState) (stage : Stage),
      List.Sorted (· ≤ ·) ((list_models st stage).map fun s => s.slug)) ∧
    (∀ (st : RegState) (stage : Stage) (dirs2 : List ModelKey),
      dirs2.Perm st.modelDirs →
      list_models { st with modelDirs := dirs2 } stage = list_models st stage) := by
  constructor
  · intro st stage
    unfold list_models
    rw [list_models_slugs]
    exact List.Pairwise.sublist (List.filter_sublist _) (List.sorted_insertionSort _ _)
  · intro st stage dirs2 hperm
    have hsorteq : List.insertionSort (· ≤ ·) (stageSlugs { st with modelDirs := dirs2 } stage) =
        List.insertionSort (· ≤ ·) (stageSlugs st stage) := by
      refine List.eq_of_perm_of_sorted ?_ (List.sorted_insertionSort _ _)
        (List.sorted_insertionSort _ _)
      unfold stageSlugs
      exact (List.perm_insertionSort _ _).trans
        ((List.Perm.filterMap _ hperm).trans (List.perm_insertionSort _ _).symm)
    unfold list_models
    rw [hsorteq]

def stTwoDirs : RegState :=
  { emptyState with
    modelDirs := [(Stage.dev, "b".codes), (Stage.dev, "a".codes)],
    indices := [((Stage.dev, "a".codes), emptyIndex), ((Stage.dev, "b".codes), emptyIndex)] }

/-- Witness for C10: two enumeration orders of the same model directories
give the same listing. -/
theorem list_models_sorted_and_order_independent_witness :
    list_models { stTwoDirs with modelDirs := [(Stage.dev, "a".codes), (Stage.dev, "b".codes)] }
        Stage.dev = list_models stTwoDirs Stage.dev :=
  list_models_sorted_and_order_independent.2 stTwoDirs Stage.dev
    [(Stage.dev, "a".codes), (Stage.dev, "b".codes)] (by decide)

/-- The first preferred checkpoint name that matches some payload file. -/
def firstMatchingName (files : List RelPath) : Option PyStr :=
  preferredNames.find? fun n => files.any (nameMatches n)

theorem findSome?_head_of_find? {files : List RelPath} :
    ∀ {names : List PyStr} {name : PyStr},
      names.find? (fun n => files.any (nameMatches n)) = some name →
      names.findSome? (fun n => (files.filter (nameMatches n)).head?) =
        (files.filter (nameMatches name)).head? ∧
      ((files.filter (nameMatches name)).head?).isSome = true := by
  intro names
  induction names with
  | nil => intro name h; simp at h
  | cons n0 t ih =>
    intro name h
    by_cases hq : files.any (nameMatches n0) = true
    · rw [show List.find? (fun n => files.any (nameMatches n)) (n0 :: t) = some n0 from
        List.find?_cons_of_pos _ (by exact hq)] at h
      obtain rfl : n0 = name := Option.some.inj h
      obtain ⟨p, hp, hm⟩ := List.any_eq_true.mp hq
      have hfil : files.filter (nameMatches n0) ≠ [] := by
        intro hnil
        have := List.filter_eq_nil_iff.mp hnil p hp
        exact this hm
      obtain ⟨f, t', hft⟩ : ∃ f t', files.filter (nameMatches n0) = f :: t' := by
        cases hx : files.filter (nameMatches n0) with
        | nil => exact absurd hx hfil
        | cons f t' => exact ⟨f, t', rfl⟩
      rw [List.findSome?_cons, hft]
      exact ⟨rfl, rfl⟩
    · rw [show List.find? (fun n => files.any (nameMatches n)) (n0 :: t) =
          List.find? (fun n => files.any (nameMatches n)) t from
        List.find?_cons_of_neg _ (by exact hq)] at h
      have hfil : files.filter (nameMatches n0) = [] :=
        List.filter_eq_nil_iff.mpr fun p hp hm => hq (List.any_eq_true.mpr ⟨p, hp, hm⟩)
      rw [List.findSome?_cons, hfil]
      exact ih h

theorem discover_no_preferred {files : List RelPath}
    (h : ∀ name ∈ preferredNames, ∀ p ∈ files, nameMatches name p = false) :
    _discover_torch_payload_file files =
      ckptExtensions.findSome? fun ext =>
        (List.insertionSort (· ≤ ·) (files.filter (extMatches ext))).head? := by
  unfold _discover_torch_payload_file
  have hnone : preferredNames.findSome?
      (fun name => (files.filter (nameMatches name)).head?) = none := by
    rw [List.findSome?_eq_none_iff]
    intro n hn
    rw [List.filter_eq_nil_iff.mpr fun p hp => by simp [h n hn p hp]]
    rfl
  rw [hnone]

/-- C8 counterexample: the claim says the discovered checkpoint is
independent of filesystem enumeration order in all cases; but with two
files both named `model.pth` (a preferred name) in different
subdirectories, the two enumeration orders of the same file set yield
different results, because the preferred-name branch takes `found[0]` of an
unsorted glob. -/
theorem discover_enumeration_order_counterexample :
    (([["a".codes, "model.pth".codes], ["b".codes, "model.pth".codes]] : List RelPath).Perm
      [["b".codes, "model.pth".codes], ["a".codes, "model.pth".codes]]) ∧
    _discover_torch_payload_file
        [["a".codes, "model.pth".codes], ["b".codes, "model.pth".codes]] ≠
      _discover_torch_payload_file
        [["b".codes, "model.pth".codes], ["a".codes, "model.pth".codes]] := by
  constructor
  · exact List.Perm.swap _ _ _
  · decide

/-- C8 (amended): checkpoint discovery checks the preferred names in
priority order and, for the first matching name, returns the first match in
filesystem enumeration order (so it is deterministic only when that name
matches a single file); when no preferred name matches, the extension-glob
fallback is sorted and hence independent of enumeration order; when nothing
matches at all the result is `NotFound`. -/
theorem discover_checkpoint_amended :
    (∀ files files2 : List RelPath,
      (∀ name ∈ preferredNames, ∀ p ∈ files, nameMatches name p = false) →
      files2.Perm files →
      _discover_torch_payload_file files2 = _discover_torch_payload_file files) ∧
    (∀ (files : List RelPath) (name : PyStr),
      firstMatchingName files = some name →
      _discover_torch_payload_file files = (files.filter (nameMatches name)).head?) ∧
    (∀ files : List RelPath,
      (∀ name ∈ preferredNames, ∀ p ∈ files, nameMatches name p = false) →
      (∀ ext ∈ ckptExtensions, ∀ p ∈ files, extMatches ext p = false) →
      _discover_torch_payload_file files = none) := by
  refine ⟨?_, ?_, ?_⟩
  · intro files files2 h hperm
    have h2 : ∀ name ∈ preferredNames, ∀ p ∈ files2, nameMatches name p = false :=
      fun name hn p hp => h name hn p (hperm.mem_iff.mp hp)
    rw [discover_no_preferred h, discover_no_preferred h2]
    have hx : ∀ ext : PyStr, List.insertionSort (· ≤ ·) (files2.filter (extMatches ext)) =
        List.insertionSort (· ≤ ·) (files.filter (extMatches ext)) := by
      intro ext
      refine List.eq_of_perm_of_sorted ?_ (List.sorted_insertionSort _ _)
        (List.sorted_insertionSort _ _)
      exact (List.perm_insertionSort _ _).trans
        ((hperm.filter _).trans (List.perm_insertionSort _ _).symm)
    have hfun : (fun ext => (List.insertionSort (· ≤ ·)
          (files2.filter (extMatches ext))).head?) =
        fun ext => (List.insertionSort (· ≤ ·) (files.filter (extMatches ext))).head? :=
      funext fun ext => by rw [hx]
    rw [hfun]
  · intro files name h
    unfold _discover_torch_payload_file
    obtain ⟨h1, h2⟩ := findSome?_head_of_find? h
    rw [h1]
    obtain ⟨f, hf⟩ := Option.isSome_iff_exists.mp h2
    rw [hf]
  · intro files h hext
    rw [discover_no_preferred h]
    rw [List.findSome?_eq_none_iff]
    intro ext hn
    rw [List.filter_eq_nil_iff.mpr fun p hp => by simp [hext ext hn p hp]]
    rfl

/-- Witness for C8 (amended) at concrete payload listings. -/
theorem discover_checkpoint_amended_witness :
    _discover_torch_payload_file [["b.pth".codes], ["a.pth".codes]] =
      _discover_torch_payload_file [["a.pth".codes], ["b.pth".codes]] ∧
    _discover_torch_payload_file
        [["a".codes, "model.pth".codes], ["b".codes, "model.pth".codes]] =
      (([["a".codes, "model.pth".codes], ["b".codes, "model.pth".codes]] : List RelPath).filter
        (nameMatches ("model.pth".codes))).head? ∧
    _discover_torch_payload_file [["readme.txt".codes]] = none :=
  ⟨discover_checkpoint_amended.1 [["a.pth".codes], ["b.pth".codes]]
      [["b.pth".codes], ["a.pth".codes]] (by decide) (by decide),
   discover_checkpoint_amended.2.1
      [["a".codes, "model.pth".codes], ["b".codes, "model.pth".codes]]
      ("model.pth".codes) (by decide),
   discover_checkpoint_amended.2.2 [["readme.txt".codes]] (by decide) (by decide)⟩

theorem dictGet_dictSet_self (d : PyDict) (k : PyStr) (v : PyVal) :
    dictGet (dictSet d k v) k = some v := by
  induction d with
  | nil => simp [dictSet, dictGet, keyIs]
  | cons e rest ih =>
    by_cases h : keyIs k e.1 = true
    · simp [dictSet, dictGet, h]
    · simp [dictSet, dictGet, h, ih]

theorem keyIs_str_ne {k k' : PyStr} (h : k' ≠ k) : keyIs k' (.str k) = false := by
  simp only [keyIs, beq_eq_false_iff_ne, ne_eq]
  exact fun hh => h hh.symm

theorem dictGet_dictSet_ne (d : PyDict) (k : PyStr) (v : PyVal) (k' : PyStr) (h : k' ≠ k) :
    dictGet (dictSet d k v) k' = dictGet d k' := by
  induction d with
  | nil =>
    simp only [dictSet, dictGet]
    rw [keyIs_str_ne h]
    simp
  | cons e rest ih =>
    by_cases he : keyIs k e.1 = true
    · rw [show dictSet (e :: rest) k v = (e.1, v) :: rest from by simp [dictSet, he]]
      by_cases hk : keyIs k' e.1 = true
      · cases e1 : e.1 with
        | str s =>
          rw [e1] at he hk
          have h1 : s = k := by simpa [keyIs] using he
          have h2 : s = k' := by simpa [keyIs] using hk
          exact absurd (h2 ▸ h1) h
        | tensor i => rw [e1] at he; simp [keyIs] at he
        | int n => rw [e1] at he; simp [keyIs] at he
        | pynone => rw [e1] at he; simp [keyIs] at he
        | dict l => rw [e1] at he; simp [keyIs] at he
        | other => rw [e1] at he; simp [keyIs] at he
      · simp [dictGet, hk]
    · rw [show dictSet (e :: rest) k v = e :: dictSet rest k v from by simp [dictSet, he]]
      by_cases hk : keyIs k' e.1 = true
      · simp [dictGet, hk]
      · simp [dictGet, hk, ih]

theorem dictGet_append (d1 d2 : PyDict) (k : PyStr) :
    dictGet (d1 ++ d2) k =
      match dictGet d1 k with
      | some v => some v
      | none => dictGet d2 k := by
  induction d1 with
  | nil => simp [dictGet]
  | cons e rest ih =>
    by_cases h : keyIs k e.1 = true
    · simp [dictGet, h]
    · simp [dictGet, h, ih]

theorem dictGet_dictSetdefault_self (d : PyDict) (k : PyStr) (v : PyVal) :
    dictGet (dictSetdefault d k v) k = some ((dictGet d k).getD v) := by
  unfold dictSetdefault
  cases hg : dictGet d k with
  | some x => simp [hg]
  | none =>
    simp only [hg, Option.isSome_none, Bool.false_eq_true, if_false, Option.getD_none]
    rw [dictGet_append, hg]
    simp [dictGet, keyIs]

theorem dictGet_dictSetdefault_ne (d : PyDict) (k : PyStr) (v : PyVal) (k' : PyStr)
    (h : k' ≠ k) : dictGet (dictSetdefault d k v) k' = dictGet d k' := by
  unfold dictSetdefault
  cases hg : dictGet d k with
  | some x => simp [hg]
  | none =>
    simp only [hg, Option.isSome_none, Bool.false_eq_true, if_false]
    rw [dictGet_append]
    cases hg' : dictGet d k' with
    | some y => rfl
    | none =>
      simp only [dictGet, keyIs]
      rw [if_neg (by simpa using fun hh => h (by simpa using hh.symm))]

theorem stampEnvelope_get_tag (s : PyDict) (srcName : PyStr) (nc : Option Int) (now : PyStr) :
    dictGet (stampEnvelope s srcName nc now) ("standard_format".codes) =
      some (.str ("void_torch_checkpoint_v1".codes)) := by
  unfold stampEnvelope
  rw [dictGet_dictSet_ne _ _ _ _ (by decide), dictGet_dictSet_ne _ _ _ _ (by decide),
    dictGet_dictSet_self]

theorem stampEnvelope_get_src (s : PyDict) (srcName : PyStr) (nc : Option Int) (now : PyStr) :
    dictGet (stampEnvelope s srcName nc now) ("source_file".codes) = some (.str srcName) := by
  unfold stampEnvelope
  rw [dictGet_dictSet_ne _ _ _ _ (by decide), dictGet_dictSet_self]

theorem stampEnvelope_get_time (s : PyDict) (srcName : PyStr) (nc : Option Int) (now : PyStr) :
    dictGet (stampEnvelope s srcName nc now) ("converted_at".codes) = some (.str now) := by
  unfold stampEnvelope
  rw [dictGet_dictSet_self]

theorem stampEnvelope_get_task (s : PyDict) (srcName : PyStr) (nc : Option Int) (now : PyStr) :
    dictGet (stampEnvelope s srcName nc now) ("task_type".codes) =
      dictGet s ("task_type".codes) := by
  unfold stampEnvelope
  rw [dictGet_dictSet_ne _ _ _ _ (by decide), dictGet_dictSet_ne _ _ _ _ (by decide),
    dictGet_dictSet_ne _ _ _ _ (by decide)]
  cases nc with
  | none => rfl
  | some n =>
    dsimp only
    by_cases h : dictGetIsNone s ("num_classes".codes) = true
    · rw [if_pos h, dictGet_dictSet_ne _ _ _ _ (by decide)]
    · rw [if_neg h]

theorem stampEnvelope_get_numc (s : PyDict) (srcName : PyStr) (nc : Option Int) (now : PyStr) :
    dictGet (stampEnvelope s srcName nc now) ("num_classes".codes) =
      (match nc with
       | some n => if dictGetIsNone s ("num_classes".codes) = true
                   then some (.int n) else dictGet s ("num_classes".codes)
       | none => dictGet s ("num_classes".codes)) := by
  unfold stampEnvelope
  rw [dictGet_dictSet_ne _ _ _ _ (by decide), dictGet_dictSet_ne _ _ _ _ (by decide),
    dictGet_dictSet_ne _ _ _ _ (by decide)]
  cases nc with
  | none => rfl
  | some n =>
    dsimp only
    by_cases h : dictGetIsNone s ("num_classes".codes) = true
    · rw [if_pos h, if_pos h, dictGet_dictSet_self]
    · rw [if_neg h, if_neg h]

theorem dictGet_cons_ne {e : PyVal × PyVal} {rest : PyDict} {k : PyStr}
    (h : keyIs k e.1 = false) : dictGet (e :: rest) k = dictGet rest k := by
  simp [dictGet, h]

theorem dictGet_cons_self {s : PyStr} {v : PyVal} {rest : PyDict} :
    dictGet ((PyVal.str s, v) :: rest) s = some v := by
  simp [dictGet, keyIs]

theorem ncAdjusted_some (b : PyDict) (n : Int) :
    ncAdjusted b (some n) = dictSet b ("num_classes".codes) (.int n) := rfl

theorem ncAdjusted_none (b : PyDict) : ncAdjusted b none = b := rfl

theorem build_module_eq (sd : PyDict) (srcName : PyStr) (taskType : Option PyStr)
    (numClasses : Option Int) (now : PyStr) :
    _build_torch_standard_payload (.module sd) srcName taskType numClasses now =
      Except.ok (stampEnvelope
        [(.str ("model_state_dict".codes), .dict sd),
         (.str ("task_type".codes), .str (pyOrStr taskType ("classification".codes))),
         (.str ("num_classes".codes), moduleNumVal numClasses)] srcName numClasses now) := rfl

theorem build_dictData_eq (d : PyDict) (srcName : PyStr) (taskType : Option PyStr)
    (numClasses : Option Int) (now : PyStr) :
    _build_torch_standard_payload (.dictData d) srcName taskType numClasses now =
      if (hasMSDdict d || _looks_like_state_dict d) = true then
        Except.ok (stampEnvelope (ncAdjusted (dictSetdefault
          (if hasMSDdict d = true then d else [(.str ("model_state_dict".codes), .dict d)])
          ("task_type".codes) (.str (pyOrStr taskType ("classification".codes))))
          numClasses) srcName numClasses now)
      else Except.error CkptError.unsupportedDict := rfl

theorem build_other_eq (srcName : PyStr) (taskType : Option PyStr)
    (numClasses : Option Int) (now : PyStr) :
    _build_torch_standard_payload .otherData srcName taskType numClasses now =
      Except.error CkptError.unsupportedType := rfl

/-- A checkpoint dict that already carries a nested parameter map and a
top-level `task_type` of its own. -/
def segRaw : PyDict :=
  [(.str ("model_state_dict".codes), .dict []),
   (.str ("task_type".codes), .str ("segmentation".codes))]

/-- C5 counterexample: the claim says caller-supplied `taskType` takes
precedence over the value embedded in the checkpoint.  But the code uses
`setdefault`, so for a checkpoint embedding `task_type = "segmentation"`
and a caller supplying `"detection"`, the envelope keeps `"segmentation"`. -/
theorem standardize_caller_precedence_counterexample :
    (_build_torch_standard_payload (.dictData segRaw) ("f.pth".codes)
        (some ("detection".codes)) none ("t0".codes)).toOption.bind
      (fun env => dictGet env ("task_type".codes)) =
      some (.str ("segmentation".codes)) ∧
    some (PyVal.str ("segmentation".codes)) ≠ some (PyVal.str ("detection".codes)) := by
  constructor
  · rfl
  · intro h
    exact absurd (PyVal.str.inj (Option.some.inj h)) (by decide)

/-- C5 (amended): every envelope produced from an accepted checkpoint is
stamped with the fixed `standard_format` tag, the originating file name and
the conversion timestamp; `numClasses` resolves with caller precedence over
the embedded value; but `taskType` resolves with embedded precedence: a
top-level `task_type` already present in the checkpoint dict is kept even
when the caller supplies one, and the caller's value (or the default
`classification`) is used only when the checkpoint carries none. -/
theorem standardize_envelope_amended :
    (∀ (raw : RawCkpt) (srcName : PyStr) (taskType : Option PyStr) (numClasses : Option Int)
        (now : PyStr) (env : PyDict),
      _build_torch_standard_payload raw srcName taskType numClasses now = Except.ok env →
      dictGet env ("standard_format".codes) =
        some (.str ("void_torch_checkpoint_v1".codes)) ∧
      dictGet env ("source_file".codes) = some (.str srcName) ∧
      dictGet env ("converted_at".codes) = some (.str now)) ∧
    (∀ (d : PyDict) (srcName : PyStr) (taskType : Option PyStr) (numClasses : Option Int)
        (now : PyStr) (env : PyDict),
      hasMSDdict d = true →
      _build_torch_standard_payload (.dictData d) srcName taskType numClasses now =
        Except.ok env →
      dictGet env ("task_type".codes) =
        some ((dictGet d ("task_type".codes)).getD
          (.str (pyOrStr taskType ("classification".codes)))) ∧
      dictGet env ("num_classes".codes) =
        (match numClasses with
         | some n => some (.int n)
         | none => dictGet d ("num_classes".codes))) ∧
    (∀ (d : PyDict) (srcName : PyStr) (taskType : Option PyStr) (numClasses : Option Int)
        (now : PyStr) (env : PyDict),
      hasMSDdict d = false → _looks_like_state_dict d = true →
      _build_torch_standard_payload (.dictData d) srcName taskType numClasses now =
        Except.ok env →
      dictGet env ("task_type".codes) =
        some (.str (pyOrStr taskType ("classification".codes))) ∧
      dictGet env ("num_classes".codes) =
        (match numClasses with
         | some n => some (.int n)
         | none => none)) ∧
    (∀ (sd : PyDict) (srcName : PyStr) (taskType : Option PyStr) (numClasses : Option Int)
        (now : PyStr) (env : PyDict),
      _build_torch_standard_payload (.module sd) srcName taskType numClasses now =
        Except.ok env →
      dictGet env ("task_type".codes) =
        some (.str (pyOrStr taskType ("classification".codes))) ∧
      dictGet env ("num_classes".codes) =
        (match numClasses with
         | some n => some (.int n)
         | none => some PyVal.pynone)) := by
  refine ⟨?_, ?_, ?_, ?_⟩
  · intro raw srcName taskType numClasses now env h
    cases raw with
    | module sd =>
      rw [build_module_eq] at h
      obtain rfl := Except.ok.inj h
      exact ⟨stampEnvelope_get_tag _ _ _ _, stampEnvelope_get_src _ _ _ _,
        stampEnvelope_get_time _ _ _ _⟩
    | dictData d =>
      rw [build_dictData_eq] at h
      by_cases hcond : (hasMSDdict d || _looks_like_state_dict d) = true
      · rw [if_pos hcond] at h
        obtain rfl := Except.ok.inj h
        exact ⟨stampEnvelope_get_tag _ _ _ _, stampEnvelope_get_src _ _ _ _,
          stampEnvelope_get_time _ _ _ _⟩
      · rw [if_neg hcond] at h
        exact absurd h (by simp)
    | otherData =>
      rw [build_other_eq] at h
      exact absurd h (by simp)
  · intro d srcName taskType numClasses now env hms h
    rw [build_dictData_eq, if_pos (by simp [hms]), if_pos hms] at h
    obtain rfl := Except.ok.inj h
    constructor
    · rw [stampEnvelope_get_task]
      cases numClasses with
      | none => exact dictGet_dictSetdefault_self _ _ _
      | some n =>
        rw [ncAdjusted_some, dictGet_dictSet_ne _ _ _ _ (by decide)]
        exact dictGet_dictSetdefault_self _ _ _
    · rw [stampEnvelope_get_numc]
      cases numClasses with
      | none => exact dictGet_dictSetdefault_ne _ _ _ _ (by decide)
      | some n =>
        have hget := dictGet_dictSet_self (dictSetdefault d ("task_type".codes)
          (.str (pyOrStr taskType ("classification".codes)))) ("num_classes".codes)
          (PyVal.int n)
        have hin : dictGetIsNone (dictSet (dictSetdefault d ("task_type".codes)
            (.str (pyOrStr taskType ("classification".codes)))) ("num_classes".codes)
            (PyVal.int n)) ("num_classes".codes) = false := by
          unfold dictGetIsNone
          rw [hget]
        simp only [ncAdjusted_some, hin, Bool.false_eq_true, if_false]
        exact hget
  · intro d srcName taskType numClasses now env hms hls h
    rw [build_dictData_eq, if_pos (by simp [hls]), if_neg (by simp [hms])] at h
    obtain rfl := Except.ok.inj h
    cases numClasses with
    | none => exact ⟨rfl, rfl⟩
    | some n => exact ⟨rfl, rfl⟩
  · intro sd srcName taskType numClasses now env h
    rw [build_module_eq] at h
    obtain rfl := Except.ok.inj h
    cases numClasses with
    | none => exact ⟨rfl, rfl⟩
    | some n => exact ⟨rfl, rfl⟩

def okDict (x : Except CkptError PyDict) : PyDict :=
  match x with
  | .ok d => d
  | .error _ => []

/-- A bare parameter map (all string keys, a tensor value). -/
def bareStateDict : PyDict := [(.str ("w".codes), .tensor 0)]

/-- Witness for C5 (amended) at concrete checkpoints of each accepted
shape. -/
theorem standardize_envelope_amended_witness :
    (dictGet (okDict (_build_torch_standard_payload (.dictData segRaw) ("f.pth".codes)
        (some ("detection".codes)) (some 3) ("t0".codes))) ("standard_format".codes) =
      some (.str ("void_torch_checkpoint_v1".codes)) ∧
      dictGet (okDict (_build_torch_standard_payload (.dictData segRaw) ("f.pth".codes)
        (some ("detection".codes)) (some 3) ("t0".codes))) ("source_file".codes) =
        some (.str ("f.pth".codes)) ∧
      dictGet (okDict (_build_torch_standard_payload (.dictData segRaw) ("f.pth".codes)
        (some ("detection".codes)) (some 3) ("t0".codes))) ("converted_at".codes) =
        some (.str ("t0".codes))) ∧
    (dictGet (okDict (_build_torch_standard_payload (.dictData segRaw) ("f.pth".codes)
        (some ("detection".codes)) (some 3) ("t0".codes))) ("task_type".codes) =
      some ((dictGet segRaw ("task_type".codes)).getD
        (.str (pyOrStr (some ("detection".codes)) ("classification".codes)))) ∧
      dictGet (okDict (_build_torch_standard_payload (.dictData segRaw) ("f.pth".codes)
        (some ("detection".codes)) (some 3) ("t0".codes))) ("num_classes".codes) =
        some (.int 3)) ∧
    dictGet (okDict (_build_torch_standard_payload (.dictData bareStateDict) ("g.pth".codes)
      none none ("t1".codes))) ("task_type".codes) =
      some (.str (pyOrStr none ("classification".codes))) ∧
    dictGet (okDict (_build_torch_standard_payload (.module bareStateDict) ("h.pth".codes)
      none (some 7) ("t2".codes))) ("num_classes".codes) = some (.int 7) := by
  refine ⟨?_, ?_, ?_, ?_⟩
  · exact standardize_envelope_amended.1 (.dictData segRaw) ("f.pth".codes)
      (some ("detection".codes)) (some 3) ("t0".codes) _ rfl
  · exact standardize_envelope_amended.2.1 segRaw ("f.pth".codes)
      (some ("detection".codes)) (some 3) ("t0".codes) _ rfl rfl
  · exact (standardize_envelope_amended.2.2.1 bareStateDict ("g.pth".codes)
      none none ("t1".codes) _ rfl rfl rfl).1
  · exact (standardize_envelope_amended.2.2.2 bareStateDict ("h.pth".codes)
      none (some 7) ("t2".codes) _ rfl).2

end FtpRegistry
